import Mathlib

/-!
Verification development for the cronos daemon's data plane
(crates/cronos-model, cronos-proto, cronos-core).

The Rust source is shallowly embedded: SQLite tables become Lean lists of
rows, the in-memory `HashMap` caches become functions to `Option`, machine
integers become `Int`/`Nat` (with explicit `% 2^w` where a Rust `as` cast
can wrap), the `f32` edge strength becomes `ℚ` (the program only ever
combines the literals 0.5, 0.1 and 1.0, all exactly representable), and
fallible SQL statements return an optional error together with the state
reached, statement by statement, mirroring SQLite autocommit (no enclosing
transaction in the source).
-/

namespace Cronos

/-- `cronos_model::EntityKind` (crates/cronos-model/src/lib.rs). -/
inductive EntityKind where
  | project
  | file
  | repository
  | branch
  | commit
  | url
  | domain
  | app
  | terminalSession
  | terminalCommand
  | custom (tag : String)
deriving DecidableEq

/-- `cronos_model::CollectorSource`. The checked-in copy of
cronos-model lists `Filesystem | Browser | Git | Terminal | Custom`;
the `AppMonitor` variant is required by its in-repo callers
(`aggregator.rs`, `cronos-collect-appmon`) and is included here. -/
inductive CollectorSource where
  | filesystem
  | browser
  | git
  | terminal
  | appMonitor
  | custom (s : String)
deriving DecidableEq

/-- The string produced by Rust `format!("{:?}", source)` on a derived
`Debug` of `CollectorSource`; used as half of the ingest dedup key. (The
`Debug` escaping of the custom tag is dropped; the map stays injective,
which is all the dedup key relies on.) -/
def sourceDebugStr : CollectorSource → String
  | .filesystem => "Filesystem"
  | .browser => "Browser"
  | .git => "Git"
  | .terminal => "Terminal"
  | .appMonitor => "AppMonitor"
  | .custom s => "Custom(\"" ++ s ++ "\")"

/-- `cronos_model::EventKind` (with `AppFocused`, used by the
app-monitor collector and the aggregator). -/
inductive EventKind where
  | fileOpened
  | fileModified
  | fileCreated
  | fileDeleted
  | urlVisited
  | tabFocused
  | commitCreated
  | branchChanged
  | commandExecuted
  | appFocused
  | custom (s : String)
deriving DecidableEq

/-- A JSON value as far as the embedded code inspects one:
`serde_json::Value::as_str` distinguishes strings from everything else. -/
inductive JsonValue where
  | str (s : String)
  | nonString
deriving DecidableEq

def JsonValue.asStr : JsonValue → Option String
  | .str s => some s
  | .nonString => none

/-- `cronos_model::Attributes = HashMap<String, serde_json::Value>`,
embedded as an association list with `HashMap::get` = first match. -/
abbrev Attributes := List (String × JsonValue)

/-- `HashMap::get` on an attribute map. -/
def Attributes.get (m : Attributes) (k : String) : Option JsonValue :=
  (List.find? (fun p => p.1 = k) m).map (·.2)

/-- `cronos_model::Entity`. The 26-character ULID ids are abstracted to
`Nat`; freshness of `EntityId::new()` is carried by an id counter. -/
structure Entity where
  id : Nat
  kind : EntityKind
  name : String
  attributes : Attributes
  first_seen : Int
  last_seen : Int
deriving DecidableEq

/-- `cronos_model::EntityRef`. -/
structure EntityRef where
  kind : EntityKind
  identity : String
  attributes : Attributes
deriving DecidableEq

/-- `cronos_model::Event`. -/
structure Event where
  id : Nat
  timestamp : Int
  source : CollectorSource
  kind : EventKind
  subject : EntityRef
  context : List EntityRef
  metadata : Attributes
deriving DecidableEq

/-- `cronos_model::Relation`. -/
inductive Relation where
  | belongsTo
  | contains
  | references
  | occurredDuring
  | visited
  | relatedTo
  | custom (s : String)
deriving DecidableEq

/-- `cronos_model::Edge`. `from`/`to` are Lean keywords, hence `fromId` /
`toId`; `strength` is the on-disk/in-memory float, embedded as `ℚ`. -/
structure Edge where
  id : Nat
  fromId : Nat
  toId : Nat
  relation : Relation
  strength : ℚ
  created_at : Int
  last_reinforced : Int
deriving DecidableEq

-- ─── Ingest pipeline (cronos-core/src/ingest/mod.rs) ─────────────────

/-- `IngestPipeline`: dedup map from `(source debug string, identity)` to
the last accepted timestamp, plus the configured window. -/
structure IngestPipeline where
  dedupCache : String × String → Option Int
  dedupWindowMs : Nat

def IngestPipeline.new (dedupWindowMs : Nat) : IngestPipeline :=
  { dedupCache := fun _ => none, dedupWindowMs }

/-- `self.dedup_cache.insert(key, event.timestamp)`. -/
def IngestPipeline.record (p : IngestPipeline) (event : Event) : IngestPipeline :=
  { p with dedupCache := fun k =>
      if k = (sourceDebugStr event.source, event.subject.identity) then some event.timestamp
      else p.dedupCache k }

/-- `IngestPipeline::process`: drop on empty subject identity; drop when a
cached timestamp under the same key is strictly within the window
(`(event.timestamp - last_ts).unsigned_abs() < dedup_window_ms`);
otherwise record the timestamp and forward the event. -/
def IngestPipeline.process (p : IngestPipeline) (event : Event) :
    Option Event × IngestPipeline :=
  if event.subject.identity = "" then (none, p)
  else
    match p.dedupCache (sourceDebugStr event.source, event.subject.identity) with
    | some lastTs =>
      if (event.timestamp - lastTs).natAbs < p.dedupWindowMs then (none, p)
      else (some event, p.record event)
    | none => (some event, p.record event)

/-- `IngestPipeline::prune_cache`: retain entries with timestamp ≥ `before`. -/
def IngestPipeline.pruneCache (p : IngestPipeline) (before : Int) : IngestPipeline :=
  { p with dedupCache := fun k => match p.dedupCache k with
      | some ts => if before ≤ ts then some ts else none
      | none => none }

/-- A concrete filesystem event, mirroring the fixtures of the source's
unit tests (`make_event` in ingest/mod.rs). -/
def sampleEvent (ts : Int) (ident : String) : Event :=
  { id := 0, timestamp := ts, source := .filesystem, kind := .fileModified,
    subject := { kind := .file, identity := ident, attributes := [] },
    context := [], metadata := [] }

/-- A concrete entity fixture (cf. `make_entity` in the repo.rs tests). -/
def sampleEntity (id : Nat) (kind : EntityKind) (name : String)
    (fs ls : Int) : Entity :=
  { id := id, kind := kind, name := name, attributes := [],
    first_seen := fs, last_seen := ls }


/-- Insertion into a sorted list: with `sortBy` below this models the SQL
`ORDER BY` of the range queries (any sorting algorithm is observationally
equal; insertion sort keeps the model kernel-computable). -/
def insertSortedBy (le : α → α → Bool) (e : α) : List α → List α
  | [] => [e]
  | x :: xs => if le e x then e :: x :: xs else x :: insertSortedBy le e xs

/-- Sort a list by the given comparison (SQL `ORDER BY`). -/
def sortBy (le : α → α → Bool) (l : List α) : List α :=
  l.foldr (insertSortedBy le) []

-- ─── Repository (cronos-core/src/storage/repo.rs) ────────────────────

/-- `StoredEvent`: an event row of the `events` table, subject resolved. -/
structure StoredEvent where
  id : Nat
  timestamp : Int
  source : CollectorSource
  kind : EventKind
  subject_id : Nat
  metadata : Attributes
deriving DecidableEq

/-- A `sessions`-table row. The checked-in repo.rs lacks the `Session`
struct used by aggregator.rs; the fields follow §3.5 of the spec. The
random ULID `id` (`ulid::Ulid::new().to_string()`, external randomness,
never read back by the embedded code) is omitted. -/
structure Session where
  app_name : String
  window_titles : List String
  project : Option String
  category : String
  start_time : Int
  end_time : Int
  duration_secs : Int
  event_count : Int
  metadata : Attributes
deriving DecidableEq

/-- The SQLite store owned by `Repository`: one list of rows per table,
in insertion (rowid) order. `fts` is the `entities_fts` index, keyed by
the entity's rowid = its position in `entities`. -/
structure Repo where
  entities : List Entity
  events : List StoredEvent
  eventContext : List (Nat × Nat)
  edges : List Edge
  sessions : List Session
  fts : List (Nat × String × String)
deriving DecidableEq

def Repo.openInMemory : Repo :=
  { entities := [], events := [], eventContext := [], edges := [], sessions := [], fts := [] }

/-- Text form of a JSON value, for the FTS `attributes` column. -/
def jsonValueText : JsonValue → String
  | .str s => "\"" ++ s ++ "\""
  | .nonString => "null"

/-- `serde_json::to_string(&attributes)`, simplified to the flat
key/value text the FTS index tokenizes. -/
def attrsToJson (m : Attributes) : String :=
  String.intercalate ","
    (m.map (fun p => "\"" ++ p.1 ++ "\":" ++ jsonValueText p.2))

/-- The `ON CONFLICT(id) DO UPDATE` arm of `Repository::insert_entity`:
only `last_seen`, `name` and `attributes` come from the excluded row. -/
def entityUpdate (entity row : Entity) : Entity :=
  if row.id = entity.id then
    { row with last_seen := entity.last_seen, name := entity.name,
               attributes := entity.attributes }
  else row

/-- `INSERT OR REPLACE INTO entities_fts (rowid, name, attributes)`. -/
def ftsUpsert (fts : List (Nat × String × String)) (rowid : Nat)
    (name attrsStr : String) : List (Nat × String × String) :=
  if fts.any (fun f => f.1 = rowid) then
    fts.map (fun f => if f.1 = rowid then (rowid, name, attrsStr) else f)
  else fts ++ [(rowid, name, attrsStr)]

/-- `Repository::insert_entity`: upsert keyed by `id` (on conflict update
`last_seen`, `name`, `attributes` only), then refresh the FTS row at the
entity's rowid. -/
def Repo.insertEntity (r : Repo) (entity : Entity) : Repo :=
  let entities' :=
    if r.entities.any (fun row => row.id = entity.id) then
      r.entities.map (entityUpdate entity)
    else r.entities ++ [entity]
  let rowid := entities'.findIdx (fun row => row.id = entity.id)
  { r with entities := entities',
           fts := ftsUpsert r.fts rowid entity.name (attrsToJson entity.attributes) }

/-- `Repository::get_entity`: `WHERE id = ?` (first row). -/
def Repo.getEntity (r : Repo) (id : Nat) : Option Entity :=
  r.entities.find? (fun row => row.id = id)

/-- `Repository::find_entity_by_kind_and_name`. -/
def Repo.findEntityByKindAndName (r : Repo) (kind : EntityKind) (name : String) :
    Option Entity :=
  r.entities.find? (fun row => row.kind = kind ∧ row.name = name)

def Repo.allEntities (r : Repo) : List Entity := r.entities

def Repo.entityCount (r : Repo) : Nat := r.entities.length

/-- `INSERT INTO event_context` statements, one per context id, executed
in order with `?` propagation: the statement's foreign keys
(`event_id → events`, `entity_id → entities`) and composite primary key
are enforced; already-committed rows are kept on failure (autocommit,
no enclosing transaction). -/
def Repo.insertContexts (r : Repo) (eventId : Nat) :
    List Nat → Option String × Repo
  | [] => (none, r)
  | c :: rest =>
    if ¬ r.events.any (fun row => row.id = eventId) ∨
        ¬ r.entities.any (fun row => row.id = c) then
      (some "FOREIGN KEY constraint failed", r)
    else if r.eventContext.any (fun p => p.1 = eventId ∧ p.2 = c) then
      (some "UNIQUE constraint failed: event_context", r)
    else
      Repo.insertContexts { r with eventContext := r.eventContext ++ [(eventId, c)] }
        eventId rest

/-- `Repository::insert_event`: insert the event row (primary key on `id`,
foreign key `subject_id → entities`), then the context rows. Every SQL
statement commits individually; the returned repository reflects the
statements that succeeded before the first failure. -/
def Repo.insertEvent (r : Repo) (event : Event) (subjectId : Nat)
    (ctxIds : List Nat) : Option String × Repo :=
  if r.events.any (fun row => row.id = event.id) then
    (some "UNIQUE constraint failed: events.id", r)
  else if ¬ r.entities.any (fun row => row.id = subjectId) then
    (some "FOREIGN KEY constraint failed", r)
  else
    Repo.insertContexts
      { r with events := r.events ++
          [{ id := event.id, timestamp := event.timestamp, source := event.source,
             kind := event.kind, subject_id := subjectId, metadata := event.metadata }] }
      event.id ctxIds

/-- `Repository::events_in_range`: `timestamp >= start AND timestamp <= end
ORDER BY timestamp ASC`. -/
def Repo.eventsInRange (r : Repo) (start endTs : Int) : List StoredEvent :=
  sortBy (fun a b => a.timestamp ≤ b.timestamp)
    (r.events.filter (fun e => start ≤ e.timestamp ∧ e.timestamp ≤ endTs))

/-- `Repository::recent_events`: `ORDER BY timestamp DESC LIMIT ?`. -/
def Repo.recentEvents (r : Repo) (limit : Nat) : List StoredEvent :=
  (sortBy (fun a b => b.timestamp ≤ a.timestamp) r.events).take limit

def Repo.eventCount (r : Repo) : Nat := r.events.length

/-- The `ON CONFLICT(id) DO UPDATE` arm of `Repository::insert_edge`:
only `strength` and `last_reinforced` come from the excluded row. -/
def edgeUpdate (edge row : Edge) : Edge :=
  if row.id = edge.id then
    { row with strength := edge.strength, last_reinforced := edge.last_reinforced }
  else row

/-- `Repository::insert_edge`: upsert keyed by `id`. On an `id` conflict
the `DO UPDATE` arm rewrites only `strength` and `last_reinforced` (the
foreign-key columns are untouched); a fresh insert is checked against the
`from_id`/`to_id → entities(id)` foreign keys (`foreign_keys=ON` from the
migration pragma) and fails, persisting nothing, when an endpoint entity
does not exist. -/
def Repo.insertEdge (r : Repo) (edge : Edge) : Option String × Repo :=
  if r.edges.any (fun row => row.id = edge.id) then
    (none, { r with edges := r.edges.map (edgeUpdate edge) })
  else if ¬ r.entities.any (fun row => row.id = edge.fromId) ∨
      ¬ r.entities.any (fun row => row.id = edge.toId) then
    (some "FOREIGN KEY constraint failed", r)
  else (none, { r with edges := r.edges ++ [edge] })

/-- `Repository::find_edge`: `WHERE from_id = ? AND to_id = ? AND relation
= ?` (first row). -/
def Repo.findEdge (r : Repo) (fromId toId : Nat) (relation : Relation) :
    Option Edge :=
  r.edges.find? (fun row =>
    row.fromId = fromId ∧ row.toId = toId ∧ row.relation = relation)

/-- `Repository::edges_from`. -/
def Repo.edgesFrom (r : Repo) (entityId : Nat) : List Edge :=
  r.edges.filter (fun row => row.fromId = entityId)

def Repo.allEdges (r : Repo) : List Edge := r.edges

def Repo.edgeCount (r : Repo) : Nat := r.edges.length

/-- Accumulate maximal alphanumeric runs of a character list. -/
def tokensAux : List Char → List Char → List String
  | [], cur => if cur = [] then [] else [String.mk cur.reverse]
  | c :: rest, cur =>
    if c.isAlphanum then tokensAux rest (c :: cur)
    else if cur = [] then tokensAux rest []
    else String.mk cur.reverse :: tokensAux rest []

/-- Tokenization of the FTS5 `unicode61` tokenizer, simplified: maximal
alphanumeric runs, case-folded. -/
def ftsTokens (s : String) : List String :=
  tokensAux (s.toList.map Char.toLower) []

/-- Model of the SQLite FTS5 `MATCH` operator (external library, not part
of this repository). FTS5 rejects a query containing no token with
`fts5: syntax error` — in particular the empty string — before any row is
considered; for a plain term query a row matches when every query token
occurs among the row's tokens. Quoting, boolean operators and prefix
queries are out of scope of this model. -/
def ftsMatchRow (query name attrsStr : String) : Bool :=
  (ftsTokens query).all (fun t => t ∈ ftsTokens name ∨ t ∈ ftsTokens attrsStr)

/-- `Repository::search_entities`: the raw query string goes to `MATCH`;
matching FTS rows are joined back to `entities` by rowid, capped by
`LIMIT`. A `MATCH` syntax error surfaces as `rusqlite::Error`. -/
def Repo.searchEntities (r : Repo) (query : String) (limit : Nat) :
    Except String (List Entity) :=
  if ftsTokens query = [] then
    .error ("fts5: syntax error near \"" ++ query ++ "\"")
  else
    .ok ((r.fts.filterMap (fun f =>
      if ftsMatchRow query f.2.1 f.2.2 then r.entities.get? f.1 else none)).take limit)

/-- Modelled from the spec: `Repository::insert_session` is absent from
the checked-in repo.rs (only its callers in aggregator.rs are present);
§4.3 "Insert session" appends a session row. -/
def Repo.insertSession (r : Repo) (s : Session) : Repo :=
  { r with sessions := r.sessions ++ [s] }

/-- Modelled from the spec: `Repository::last_session_end_time` is absent
from the checked-in repo.rs; per §4.3 it is the "maximum `end_time`
across sessions (watermark)", `NULL`/`None` on an empty table. -/
def Repo.lastSessionEndTime (r : Repo) : Option Int :=
  (r.sessions.map (fun s => s.end_time)).max?

/-- Modelled from the spec: `Repository::sessions_in_range` is absent from
the checked-in repo.rs; per §4.3, "range query sessions by `start_time`
with `limit`". -/
def Repo.sessionsInRange (r : Repo) (start endTs : Int) (limit : Nat) :
    List Session :=
  (sortBy (fun a b => a.start_time ≤ b.start_time)
    (r.sessions.filter (fun s => start ≤ s.start_time ∧ s.start_time ≤ endTs))).take limit

-- ─── Context graph (cronos-core/src/graph/mod.rs) ────────────────────

/-- `EdgeInfo`: the petgraph edge weight. -/
structure EdgeInfo where
  edge_id : Nat
  relation : Relation
  strength : ℚ
deriving DecidableEq

/-- `ContextGraph`: a directed multigraph. petgraph's `NodeIndex` handles
are abstracted away: nodes are listed by entity id in insertion order
(`add_entity` never duplicates, so `entity_index` is the identity on
ids), and each edge stores its endpoint entity ids with its weight. -/
structure ContextGraph where
  nodes : List Nat
  edges : List (Nat × Nat × EdgeInfo)
deriving DecidableEq

def ContextGraph.new : ContextGraph := { nodes := [], edges := [] }

/-- `ContextGraph::add_entity`: idempotent node insert. -/
def ContextGraph.addEntity (g : ContextGraph) (id : Nat) : ContextGraph :=
  if id ∈ g.nodes then g else { g with nodes := g.nodes ++ [id] }

/-- Update the first list element satisfying `p` (the edge found by
`edges_connecting(..).find(..)`, or the first matching collector). -/
def updateFirst (p : α → Bool) (f : α → α) : List α → List α
  | [] => []
  | x :: xs => if p x then f x :: xs else x :: updateFirst p f xs

/-- `ContextGraph::add_edge`: ensure both endpoints, then update the
strength of the edge with the same endpoints and `edge_id` if present,
else insert a new parallel edge. -/
def ContextGraph.addEdge (g : ContextGraph) (edge : Edge) : ContextGraph :=
  let g1 := (g.addEntity edge.fromId).addEntity edge.toId
  if g1.edges.any (fun t =>
      t.1 = edge.fromId ∧ t.2.1 = edge.toId ∧ t.2.2.edge_id = edge.id) then
    { g1 with edges := (updateFirst
        (fun t => t.1 = edge.fromId ∧ t.2.1 = edge.toId ∧ t.2.2.edge_id = edge.id)
        (fun t => (t.1, t.2.1, { t.2.2 with strength := edge.strength }))
        g1.edges) }
  else
    { g1 with edges := g1.edges ++
        [(edge.fromId, edge.toId,
          { edge_id := edge.id, relation := edge.relation, strength := edge.strength })] }

/-- `ContextGraph::rebuild`: add every entity, then every edge. -/
def ContextGraph.rebuild (entities : List Entity) (edges : List Edge) : ContextGraph :=
  edges.foldl (fun g ed => g.addEdge ed)
    (entities.foldl (fun g ent => g.addEntity ent.id) ContextGraph.new)

def ContextGraph.entityCount (g : ContextGraph) : Nat := g.nodes.length

def ContextGraph.edgeCount (g : ContextGraph) : Nat := g.edges.length

def ContextGraph.hasEntity (g : ContextGraph) (id : Nat) : Bool := id ∈ g.nodes

/-- `neighbors_directed(node, Outgoing)`. -/
def ContextGraph.neighborsOut (g : ContextGraph) (n : Nat) : List Nat :=
  (g.edges.filter (fun t => t.1 = n)).map (fun t => t.2.1)

/-- `neighbors_directed(node, Incoming)`. -/
def ContextGraph.neighborsIn (g : ContextGraph) (n : Nat) : List Nat :=
  (g.edges.filter (fun t => t.2.1 = n)).map (fun t => t.1)

/-- The BFS loop of `ContextGraph::related`: pop a `(node, depth)` pair,
expand its neighbors when its depth is strictly below the bound, enqueue
and mark unvisited neighbors at depth + 1. The fuel argument bounds loop
iterations; each iteration pops one queue entry and every enqueued node is
freshly marked visited, so `node count + 1` iterations always suffice. -/
def ContextGraph.bfs (g : ContextGraph) (depth : Nat) :
    Nat → List (Nat × Nat) → List (Nat × Nat) → List (Nat × Nat)
  | 0, _, visited => visited
  | _ + 1, [], visited => visited
  | fuel + 1, (node, d) :: rest, visited =>
    if depth ≤ d then g.bfs depth fuel rest visited
    else
      let expand := fun (acc : List (Nat × Nat) × List (Nat × Nat)) (nb : Nat) =>
        if acc.2.any (fun v => v.1 = nb) then acc
        else (acc.1 ++ [(nb, d + 1)], acc.2 ++ [(nb, d + 1)])
      let next := (g.neighborsOut node ++ g.neighborsIn node).foldl expand (rest, visited)
      g.bfs depth fuel next.1 next.2

/-- `ContextGraph::related`: undirected BFS up to `depth` hops, returning
every visited entity id except the start (order is irrelevant to the
callers; the source iterates a `HashMap`). -/
def ContextGraph.related (g : ContextGraph) (entityId : Nat) (depth : Nat) : List Nat :=
  if entityId ∈ g.nodes then
    ((g.bfs depth (g.nodes.length + 1) [(entityId, 0)] [(entityId, 0)]).filter
        (fun v => v.1 ≠ entityId)).map (fun v => v.1)
  else []

-- ─── Linker (cronos-core/src/linker/mod.rs) ──────────────────────────

/-- The state a linker call touches: repository, in-memory graph, and a
counter standing in for the ULID generator (`EntityId::new` /
`EdgeId::new` return the current value, then it increments; freshness of
real ULIDs corresponds to the counter exceeding every stored id). -/
structure Store where
  repo : Repo
  graph : ContextGraph
  nextId : Nat
deriving DecidableEq

namespace Linker

/-- `Linker::resolve_entity_ref`: upsert the `(kind, identity)` entity with
`last_seen = timestamp`, or create it with `first_seen = last_seen =
timestamp`; ensure the graph node either way. -/
def resolveEntityRef (st : Store) (entityRef : EntityRef) (timestamp : Int) :
    Entity × Store :=
  match st.repo.findEntityByKindAndName entityRef.kind entityRef.identity with
  | some existing =>
    let updated := { existing with last_seen := timestamp }
    (updated, { st with repo := st.repo.insertEntity updated,
                        graph := st.graph.addEntity updated.id })
  | none =>
    let entity : Entity :=
      { id := st.nextId, kind := entityRef.kind, name := entityRef.identity,
        attributes := entityRef.attributes,
        first_seen := timestamp, last_seen := timestamp }
    (entity, { st with repo := st.repo.insertEntity entity,
                       graph := st.graph.addEntity entity.id,
                       nextId := st.nextId + 1 })

/-- `Linker::ensure_edge`: reinforce a matching `(from, to, relation)` edge
(`strength ← min(strength + 0.1, 1.0)`, `last_reinforced = timestamp`) or
create it with `strength = 0.5`, `created_at = last_reinforced =
timestamp`. `repo.insert_edge(..)?` propagates a storage failure — e.g.
the foreign-key violation of a dangling endpoint — before the graph is
touched; on success the edge is mirrored into the graph. (On the create
path the `EdgeId::new()` ULID is drawn before the insert, so the id
counter advances even when the insert fails.) -/
def ensureEdge (st : Store) (fromId toId : Nat) (relation : Relation)
    (timestamp : Int) : Option String × Store :=
  match st.repo.findEdge fromId toId relation with
  | some existing =>
    let updated := { existing with strength := min (existing.strength + 0.1) 1.0,
                                   last_reinforced := timestamp }
    match st.repo.insertEdge updated with
    | (some msg, repo') => (some msg, { st with repo := repo' })
    | (none, repo') =>
      (none, { st with repo := repo', graph := st.graph.addEdge updated })
  | none =>
    let edge : Edge :=
      { id := st.nextId, fromId := fromId, toId := toId, relation := relation,
        strength := 0.5, created_at := timestamp, last_reinforced := timestamp }
    match st.repo.insertEdge edge with
    | (some msg, repo') =>
      (some msg, { st with repo := repo', nextId := st.nextId + 1 })
    | (none, repo') =>
      (none, { st with repo := repo',
                       graph := st.graph.addEdge edge,
                       nextId := st.nextId + 1 })

end Linker

/-- `infer_relation`. -/
def inferRelation : EntityKind → EntityKind → Relation
  | .file, .project => .belongsTo
  | .commit, .repository => .belongsTo
  | .branch, .repository => .belongsTo
  | .url, .domain => .belongsTo
  | .project, .repository => .contains
  | _, _ => .relatedTo

/-- `Linker::link`: resolve the subject, then each context entity (edging
subject → context with the inferred relation as it goes), then persist the
event; `?` propagates the first storage error, aborting the loop — the
statements that already succeeded keep their effects, and `insert_event`
is not reached after an earlier failure. -/
def Linker.link (st : Store) (event : Event) : Option String × Store :=
  let subjectStep := Linker.resolveEntityRef st event.subject event.timestamp
  let subject := subjectStep.1
  let ctxStep := event.context.foldl
    (fun (acc : Option String × List Nat × Store) ctxRef =>
      match acc.1 with
      | some msg => (some msg, acc.2)
      | none =>
        let resolved := Linker.resolveEntityRef acc.2.2 ctxRef event.timestamp
        let ensured := Linker.ensureEdge resolved.2 subject.id resolved.1.id
          (inferRelation event.subject.kind ctxRef.kind) event.timestamp
        (ensured.1, acc.2.1 ++ [resolved.1.id], ensured.2))
    (none, [], subjectStep.2)
  match ctxStep.1 with
  | some msg => (some msg, ctxStep.2.2)
  | none =>
    let inserted := ctxStep.2.2.repo.insertEvent event subject.id ctxStep.2.1
    (inserted.1, { ctxStep.2.2 with repo := inserted.2 })

-- ─── Protocol messages (cronos-proto/src/message.rs) ─────────────────

/-- `cronos_proto::ErrorCode`. -/
inductive ErrorCode where
  | invalidMessage
  | internalError
  | notFound
  | badRequest
deriving DecidableEq

/-- `cronos_proto::QueryKind`, restricted to the four kinds the
checked-in engine dispatches (message.rs additionally declares `Sessions`
and `DaySummary`, which `Engine::handle_query` does not match on). -/
inductive QueryKind where
  | search (text : String) (limit : Nat)
  | timeline (fromTs : Int) (toTs : Int)
  | related (entity_id : Nat) (depth : Nat)
  | recent (limit : Nat)
deriving DecidableEq

/-- `cronos_proto::QueryRequest`. -/
structure QueryRequest where
  kind : QueryKind
deriving DecidableEq

/-- `cronos_proto::QueryResponse` (`sessions` stays empty on every path
of the checked-in engine). -/
structure QueryResponse where
  entities : List Entity
  edges : List Edge
  events : List Event
  sessions : List Session
deriving DecidableEq

/-- `cronos_proto::StatusInfo`. -/
structure StatusInfo where
  uptime_secs : Nat
  entity_count : Nat
  edge_count : Nat
  event_count : Nat
  connected_collectors : Nat
deriving DecidableEq

/-- `cronos_proto::CollectorInfo`. -/
structure CollectorInfo where
  name : String
  source : CollectorSource
  connected : Bool
  last_heartbeat : Option Int
  events_sent : Nat
deriving DecidableEq

/-- `cronos_proto::MessageKind`. -/
inductive MessageKind where
  | emitEvent (event : Event)
  | collectorHandshake (name : String) (collector_version : String)
      (source : CollectorSource)
  | heartbeat
  | query (query : QueryRequest)
  | status
  | listCollectors
  | setTrackingPaused (paused : Bool)
  | trackingStatus (paused : Bool)
  | ack (request_id : String)
  | error (request_id : String) (code : ErrorCode) (message : String)
  | queryResult (response : QueryResponse)
  | statusResult (info : StatusInfo)
  | collectorList (collectors : List CollectorInfo)
deriving DecidableEq

/-- `cronos_proto::Message`; `PROTOCOL_VERSION = 1`. -/
structure Message where
  version : Nat
  id : String
  kind : MessageKind
deriving DecidableEq

def Message.new (id : String) (kind : MessageKind) : Message :=
  { version := 1, id := id, kind := kind }

def Message.ack (requestId : String) : Message :=
  Message.new requestId (.ack requestId)

def Message.error (requestId : String) (code : ErrorCode) (msg : String) : Message :=
  Message.new requestId (.error requestId code msg)

-- ─── Engine (cronos-core/src/engine.rs) ──────────────────────────────

/-- The engine's lock-protected state: repository + graph + id counter
(bundled as `Store`), the ingest pipeline, and the collector map's values
(keys are the collector names inside). `start_time` (wall clock) and the
unused `linker.temporal_window_ms` carry no data-plane behavior. -/
structure Engine where
  store : Store
  ingest : IngestPipeline
  collectors : List CollectorInfo

/-- `stored_event_to_event`: reconstruct the `EntityRef` subject from the
repository; `context` is returned empty. -/
def storedEventToEvent (stored : StoredEvent) (repo : Repo) : Option Event :=
  (repo.getEntity stored.subject_id).map (fun entity =>
    { id := stored.id, timestamp := stored.timestamp, source := stored.source,
      kind := stored.kind,
      subject := { kind := entity.kind, identity := entity.name,
                   attributes := entity.attributes },
      context := [], metadata := stored.metadata })

/-- `Engine::handle_emit_event`: ingest-filter (drops yield a bare `Ack`);
on keep, run the linker over repository + graph, bump the matching
collector's `events_sent` on success, `Ack`; storage errors become
`Error{internal_error}` (mutations already committed are kept). -/
def Engine.handleEmitEvent (e : Engine) (requestId : String) (event : Event) :
    Message × Engine :=
  match e.ingest.process event with
  | (none, ingest') => (Message.ack requestId, { e with ingest := ingest' })
  | (some ev, ingest') =>
    let linked := Linker.link e.store ev
    match linked.1 with
    | none =>
      (Message.ack requestId,
        { e with store := linked.2, ingest := ingest',
                 collectors := updateFirst
                   (fun c => sourceDebugStr c.source = sourceDebugStr ev.source)
                   (fun c => { c with events_sent := c.events_sent + 1 })
                   e.collectors })
    | some msg =>
      (Message.error requestId .internalError msg,
        { e with store := linked.2, ingest := ingest' })

/-- `Engine::handle_query`: dispatch the four query kinds to the
repository / graph read paths; a storage error surfaces as
`Error{internal_error}` (of the four, only `Search` can fail in the
model, via the FTS `MATCH` operator). -/
def Engine.handleQuery (e : Engine) (requestId : String) (query : QueryRequest) :
    Message :=
  match query.kind with
  | .search text limit =>
    match e.store.repo.searchEntities text limit with
    | .ok entities =>
      Message.new requestId (.queryResult
        { entities := entities, edges := [], events := [], sessions := [] })
    | .error msg => Message.error requestId .internalError msg
  | .recent limit =>
    Message.new requestId (.queryResult
      { entities := [], edges := [],
        events := (e.store.repo.recentEvents limit).filterMap
          (fun se => storedEventToEvent se e.store.repo),
        sessions := [] })
  | .timeline fromTs toTs =>
    Message.new requestId (.queryResult
      { entities := [], edges := [],
        events := (e.store.repo.eventsInRange fromTs toTs).filterMap
          (fun se => storedEventToEvent se e.store.repo),
        sessions := [] })
  | .related entityId depth =>
    Message.new requestId (.queryResult
      { entities := (e.store.graph.related entityId depth).filterMap
          (fun id => e.store.repo.getEntity id),
        edges := [], events := [], sessions := [] })

-- ─── Framing (cronos-proto/src/frame.rs) ─────────────────────────────

def MAX_FRAME_SIZE : Nat := 16 * 1024 * 1024

/-- `cronos_proto::frame::FrameError` (io/json carry no data we model). -/
inductive FrameError where
  | ioError
  | jsonError
  | tooLarge (size : Nat)
  | connectionClosed
deriving DecidableEq

/-- `u32::to_le_bytes`. -/
def toLeBytes (len : Nat) : List Nat :=
  [len % 256, len / 256 % 256, len / 256 ^ 2 % 256, len / 256 ^ 3 % 256]

/-- `u32::from_le_bytes`. -/
def fromLeBytes (b0 b1 b2 b3 : Nat) : Nat :=
  b0 + 256 * b1 + 256 ^ 2 * b2 + 256 ^ 3 * b3

/-- `write_frame`: `payload` stands for the bytes of
`serde_json::to_vec(msg)` (external serializer), `out` for the bytes
already written to the stream. `payload.len() as u32` truncates the usize
length to 32 bits (`% 2^32`); an accepted frame appends the little-endian
length prefix and the payload, then flushes. -/
def writeFrame (out : List Nat) (payload : List Nat) :
    Except FrameError (List Nat) :=
  let len := payload.length % 2 ^ 32
  if MAX_FRAME_SIZE < len then .error (.tooLarge len)
  else .ok (out ++ toLeBytes len ++ payload)

/-- `read_frame` over a byte stream, returning the outcome and the bytes
left unconsumed. Fewer than 4 bytes before EOF is `ConnectionClosed`; a
length prefix over the cap is `TooLarge` with no payload byte read; a
short payload read is an io error (the stream is then exhausted). JSON
parsing of the returned payload bytes (external serde) is not modelled. -/
def readFrame (input : List Nat) : Except FrameError (List Nat) × List Nat :=
  match input with
  | b0 :: b1 :: b2 :: b3 :: rest =>
    let len := fromLeBytes b0 b1 b2 b3
    if MAX_FRAME_SIZE < len then (.error (.tooLarge len), rest)
    else if rest.length < len then (.error .ioError, [])
    else (.ok (rest.take len), rest.drop len)
  | _ => (.error .connectionClosed, [])

-- ─── Aggregator (cronos-core/src/aggregator.rs) ──────────────────────

/-- `ResolvedEvent`: timestamp, resolved app name, optional window title. -/
structure ResolvedEvent where
  timestamp : Int
  app_name : String
  window_title : Option String
deriving DecidableEq

/-- Rust `str::contains` (model over the character lists). -/
def containsSub (s pat : String) : Bool := decide (pat.toList <:+: s.toList)

/-- `categorize_app`: closed classifier over case-folded substring
matches. -/
def categorizeApp (appName : String) : String :=
  let lower := String.mk (appName.toList.map Char.toLower)
  if containsSub lower "code" || containsSub lower "xcode" ||
      containsSub lower "intellij" || containsSub lower "terminal" ||
      containsSub lower "iterm" || containsSub lower "warp" ||
      containsSub lower "alacritty" || containsSub lower "kitty" ||
      containsSub lower "cursor" then "coding"
  else if containsSub lower "discord" || containsSub lower "slack" ||
      containsSub lower "messages" || containsSub lower "telegram" ||
      containsSub lower "teams" || containsSub lower "mail" then "communication"
  else if containsSub lower "chrome" || containsSub lower "firefox" ||
      containsSub lower "safari" || containsSub lower "arc" ||
      containsSub lower "brave" || containsSub lower "edge" then "browsing"
  else if containsSub lower "notion" || containsSub lower "obsidian" ||
      containsSub lower "notes" || containsSub lower "pages" ||
      containsSub lower "docs" then "productivity"
  else if containsSub lower "spotify" || containsSub lower "music" ||
      containsSub lower "vlc" then "media"
  else if containsSub lower "finder" || containsSub lower "preview" then "system"
  else "other"

/-- `make_session` (the random ULID id is omitted, see `Session`). Rust
`i64` division truncates toward zero, `Int.div`. -/
def makeSession (appName : String) (windowTitles : List String)
    (startTime endTime : Int) (eventCount : Int) : Session :=
  { app_name := appName, window_titles := windowTitles, project := none,
    category := categorizeApp appName, start_time := startTime,
    end_time := endTime, duration_secs := Int.tdiv (endTime - startTime) 1000,
    event_count := eventCount, metadata := [] }

/-- The running `(app, start, end, titles, count)` of `build_sessions`. -/
structure BuildState where
  currentApp : String
  currentStart : Int
  currentEnd : Int
  currentTitles : List String
  currentCount : Int
deriving DecidableEq

/-- Seed the builder state from one event (push its title if any). -/
def initState (e : ResolvedEvent) : BuildState :=
  { currentApp := e.app_name, currentStart := e.timestamp,
    currentEnd := e.timestamp,
    currentTitles := (match e.window_title with
      | some title => [title]
      | none => []),
    currentCount := 1 }

/-- Extend the current session with a successor event: advance `end`,
increment the count, append the title if not already present. -/
def extendState (st : BuildState) (e : ResolvedEvent) : BuildState :=
  { st with
    currentEnd := e.timestamp
    currentCount := st.currentCount + 1
    currentTitles := (match e.window_title with
      | some title =>
        if title ∈ st.currentTitles then st.currentTitles
        else st.currentTitles ++ [title]
      | none => st.currentTitles) }

/-- The successor loop of `build_sessions`: same app and a gap strictly
below `session_gap_ms` extends; otherwise finalize and start anew. The
final session is always flushed. `session_gap_ms as i64` is exact for
gaps below `2^63`. -/
def buildGo (gap : Nat) (st : BuildState) : List ResolvedEvent → List Session
  | [] => [makeSession st.currentApp st.currentTitles st.currentStart
      st.currentEnd st.currentCount]
  | e :: rest =>
    if e.app_name = st.currentApp ∧ e.timestamp - st.currentEnd < (gap : Int) then
      buildGo gap (extendState st e) rest
    else
      makeSession st.currentApp st.currentTitles st.currentStart
          st.currentEnd st.currentCount ::
        buildGo gap (initState e) rest

/-- `SessionAggregator::build_sessions`. -/
def buildSessions (gap : Nat) : List ResolvedEvent → List Session
  | [] => []
  | e :: rest => buildGo gap (initState e) rest

/-- One app-name lookup of the aggregator's resolution loop, through the
per-run `name_cache` (missing entities resolve to "Unknown"). -/
def lookupAppName (repo : Repo) (cache : Nat → Option String) (subjectId : Nat) :
    String × (Nat → Option String) :=
  match cache subjectId with
  | some name => (name, cache)
  | none =>
    let name := (((repo.getEntity subjectId).map (fun ent => ent.name))).getD "Unknown"
    (name, fun k => if k = subjectId then some name else cache k)

/-- The resolution loop of `SessionAggregator::aggregate`: look up each
event's app name (cached), read `window_title` from the metadata. -/
def resolveApp (repo : Repo) : List StoredEvent → (Nat → Option String) →
    List ResolvedEvent
  | [], _ => []
  | e :: rest, cache =>
    let looked := lookupAppName repo cache e.subject_id
    { timestamp := e.timestamp, app_name := looked.1,
      window_title := (e.metadata.get "window_title").bind JsonValue.asStr } ::
      resolveApp repo rest looked.2

/-- The events one aggregator run processes: events in
`[watermark, now]` with `watermark = max session end_time or 0`, filtered
to the `AppMonitor` source, and excluding the exact-watermark timestamp
unless the watermark is 0. -/
def appEventsOf (repo : Repo) (now : Int) : List StoredEvent :=
  ((repo.eventsInRange (repo.lastSessionEndTime.getD 0) now).filter
      (fun e => e.source = CollectorSource.appMonitor)).filter
    (fun e => repo.lastSessionEndTime.getD 0 < e.timestamp ∨
      repo.lastSessionEndTime.getD 0 = 0)

/-- `SessionAggregator::aggregate` (`now = cronos_common::now_ms()` is a
parameter): select the app events past the watermark (`appEventsOf`);
return 0 on none; otherwise resolve app names, group into sessions,
insert every built session, and return the number inserted. -/
def aggregate (gap : Nat) (repo : Repo) (now : Int) : Nat × Repo :=
  if (appEventsOf repo now).isEmpty then (0, repo)
  else
    ((buildSessions gap (resolveApp repo (appEventsOf repo now) (fun _ => none))).length,
      (buildSessions gap (resolveApp repo (appEventsOf repo now) (fun _ => none))).foldl
        Repo.insertSession repo)

/-- A repo holding one stored app entity and one `AppMonitor` focus event
at timestamp 0, no sessions yet. -/
def zeroTsRepo : Repo :=
  { Repo.openInMemory with
    entities := [sampleEntity 1 .app "VS Code" 0 0],
    events := [{ id := 10, timestamp := 0, source := .appMonitor,
                 kind := .appFocused, subject_id := 1, metadata := [] }] }

/-- Like `zeroTsRepo` but with the event at timestamp 1000. -/
def appRepo1000 : Repo :=
  { Repo.openInMemory with
    entities := [sampleEntity 1 .app "VS Code" 1000 1000],
    events := [{ id := 10, timestamp := 1000, source := .appMonitor,
                 kind := .appFocused, subject_id := 1, metadata := [] }] }

-- ─── Derived predicates and fixtures ─────────────────────────────────

/-- Well-formedness the real system maintains for entity rows: primary-key
ids are distinct and the ULID counter exceeds every stored id (a fresh
ULID never collides with a stored one). -/
def EntWF (st : Store) : Prop :=
  (st.repo.entities.map (fun ent => ent.id)).Nodup ∧
  ∀ ent ∈ st.repo.entities, ent.id < st.nextId

/-- A sequence of `Linker::resolve_entity_ref` calls, as performed while
linking a stream of events (each event resolves its subject and context
refs at the event's timestamp). -/
def resolveFold (st : Store) (steps : List (EntityRef × Int)) : Store :=
  steps.foldl (fun s p => (Linker.resolveEntityRef s p.1 p.2).2) st

/-- An empty engine store (fresh database, fresh graph). -/
def emptyStore : Store :=
  { repo := Repo.openInMemory, graph := ContextGraph.new, nextId := 0 }

/-- A store holding one file entity, id counter past it. -/
def sampleStore : Store :=
  { repo := { Repo.openInMemory with
      entities := [sampleEntity 1 .file "main.rs" 1000 1000] },
    graph := ContextGraph.new, nextId := 2 }

def sampleRef : EntityRef :=
  { kind := .file, identity := "main.rs", attributes := [] }

/-- A store holding two entities (a file and a project), id counter past
both — the state `Linker::link` reaches after resolving a subject and one
context entity, i.e. when `ensure_edge` runs both endpoints satisfy the
`edges` foreign keys. -/
def edgeSampleStore : Store :=
  { repo := { Repo.openInMemory with
      entities := [sampleEntity 1 .file "main.rs" 1000 1000,
                   sampleEntity 2 .project "my-project" 1000 1000] },
    graph := ContextGraph.new, nextId := 3 }

/-- A freshly opened engine (`Engine::open` on an empty database). -/
def sampleEngine : Engine :=
  { store := emptyStore, ingest := IngestPipeline.new 1000, collectors := [] }

-- ════════════════ THEOREMS ════════════════

theorem process_accept_inv (p p1 : IngestPipeline) (e : Event) (eOut : Event)
    (h : p.process e = (some eOut, p1)) :
    e.subject.identity ≠ "" ∧ eOut = e ∧
      p1.dedupWindowMs = p.dedupWindowMs ∧
      p1.dedupCache (sourceDebugStr e.source, e.subject.identity) = some e.timestamp := by
  unfold IngestPipeline.process at h
  split at h
  · simp at h
  · next hid =>
    split at h
    · next lastTs hcache =>
      split at h
      · simp at h
      · rw [Prod.mk.injEq] at h
        obtain ⟨hA, hB⟩ := h
        refine ⟨hid, (Option.some.inj hA).symm, ?_, ?_⟩
        · rw [← hB]; rfl
        · rw [← hB]; simp [IngestPipeline.record]
    · rw [Prod.mk.injEq] at h
      obtain ⟨hA, hB⟩ := h
      refine ⟨hid, (Option.some.inj hA).symm, ?_, ?_⟩
      · rw [← hB]; rfl
      · rw [← hB]; simp [IngestPipeline.record]

/-- C1: if two events with the same `(source, subject.identity)` key are
processed in order and the first is accepted, the second is dropped
(`process` returns `None`) exactly when the absolute timestamp difference
is strictly below `dedup_window_ms`, and is forwarded when the difference
is at least `dedup_window_ms`. -/
theorem C1_ingest_dedup_window (p p1 : IngestPipeline) (e1 e2 : Event)
    (h1 : p.process e1 = (some e1, p1))
    (hsrc : sourceDebugStr e2.source = sourceDebugStr e1.source)
    (hid : e2.subject.identity = e1.subject.identity) :
    ((e2.timestamp - e1.timestamp).natAbs < p.dedupWindowMs →
        (p1.process e2).1 = none) ∧
    (p.dedupWindowMs ≤ (e2.timestamp - e1.timestamp).natAbs →
        (p1.process e2).1 = some e2) := by
  obtain ⟨hne, -, hw, hcache⟩ := process_accept_inv p p1 e1 e1 h1
  have hne2 : e2.subject.identity ≠ "" := by rw [hid]; exact hne
  have hkey : (sourceDebugStr e2.source, e2.subject.identity)
      = (sourceDebugStr e1.source, e1.subject.identity) := by
    rw [hsrc, hid]
  constructor
  · intro hlt
    unfold IngestPipeline.process
    rw [if_neg hne2, hkey, hcache]
    simp [hw, hlt]
  · intro hge
    unfold IngestPipeline.process
    rw [if_neg hne2, hkey, hcache]
    simp [hw, Nat.not_lt.mpr hge]

theorem C1_ingest_dedup_window_witness :
    ((((IngestPipeline.new 1000).record (sampleEvent 5000 "/src/main.rs")).process
        (sampleEvent 5500 "/src/main.rs")).1 = none) ∧
    ((((IngestPipeline.new 1000).record (sampleEvent 5000 "/src/main.rs")).process
        (sampleEvent 6500 "/src/main.rs")).1 = some (sampleEvent 6500 "/src/main.rs")) := by
  have h := C1_ingest_dedup_window (IngestPipeline.new 1000)
    ((IngestPipeline.new 1000).record (sampleEvent 5000 "/src/main.rs"))
    (sampleEvent 5000 "/src/main.rs") (sampleEvent 5500 "/src/main.rs") rfl rfl rfl
  have h' := C1_ingest_dedup_window (IngestPipeline.new 1000)
    ((IngestPipeline.new 1000).record (sampleEvent 5000 "/src/main.rs"))
    (sampleEvent 5000 "/src/main.rs") (sampleEvent 6500 "/src/main.rs") rfl rfl rfl
  exact ⟨h.1 (by decide), h'.2 (by decide)⟩

-- ─── Entity upsert lemmas (claim C6) ─────────────────────────────────

theorem entityUpdate_id (e row : Entity) : (entityUpdate e row).id = row.id := by
  unfold entityUpdate; split <;> rfl

theorem find?_map_entityUpdate_self (e : Entity) (l : List Entity) (old : Entity)
    (h : l.find? (fun row => row.id = e.id) = some old) :
    (l.map (entityUpdate e)).find? (fun row => row.id = e.id) =
      some { old with last_seen := e.last_seen, name := e.name,
                      attributes := e.attributes } := by
  induction l with
  | nil => simp at h
  | cons hd tl ih =>
    by_cases hhd : hd.id = e.id
    · rw [List.find?_cons_of_pos _ (by simpa using hhd)] at h
      have hold : old = hd := by simpa using h.symm
      rw [List.map_cons,
        List.find?_cons_of_pos _ (by simp [entityUpdate_id, hhd])]
      subst hold
      unfold entityUpdate
      rw [if_pos hhd]
    · rw [List.find?_cons_of_neg _ (by simpa using hhd)] at h
      rw [List.map_cons,
        List.find?_cons_of_neg _ (by simp [entityUpdate_id, hhd])]
      exact ih h

theorem find?_map_entityUpdate_other (e : Entity) (l : List Entity) (id' : Nat)
    (hne : id' ≠ e.id) :
    (l.map (entityUpdate e)).find? (fun row => row.id = id') =
      l.find? (fun row => row.id = id') := by
  induction l with
  | nil => rfl
  | cons hd tl ih =>
    by_cases hhd : hd.id = id'
    · rw [List.map_cons,
        List.find?_cons_of_pos _ (by simp [entityUpdate_id, hhd]),
        List.find?_cons_of_pos _ (by simpa using hhd)]
      unfold entityUpdate
      rw [if_neg (by rw [hhd]; exact hne)]
    · rw [List.map_cons,
        List.find?_cons_of_neg _ (by simp [entityUpdate_id, hhd]),
        List.find?_cons_of_neg _ (by simpa using hhd)]
      exact ih

/-- C6: upserting an entity whose `id` already exists updates only `name`,
`attributes` and `last_seen` of the stored row; its `id` and `first_seen`
are unchanged, and every other entity row is untouched. -/
theorem C6_insert_entity_upsert (r : Repo) (e old : Entity)
    (hold : r.getEntity e.id = some old) :
    (r.insertEntity e).getEntity e.id =
      some { old with name := e.name, attributes := e.attributes,
                      last_seen := e.last_seen } ∧
    ∀ id', id' ≠ e.id → (r.insertEntity e).getEntity id' = r.getEntity id' := by
  have hmem : old ∈ r.entities := List.mem_of_find?_eq_some hold
  have hpold : old.id = e.id := by simpa using List.find?_some hold
  have hany : r.entities.any (fun row => row.id = e.id) = true := by
    rw [List.any_eq_true]
    exact ⟨old, hmem, by simpa using hpold⟩
  have hent : (r.insertEntity e).entities = r.entities.map (entityUpdate e) := by
    unfold Repo.insertEntity
    simp [hany]
  constructor
  · unfold Repo.getEntity
    rw [hent]
    exact find?_map_entityUpdate_self e r.entities old hold
  · intro id' hne
    unfold Repo.getEntity
    rw [hent]
    exact find?_map_entityUpdate_other e r.entities id' hne

theorem C6_insert_entity_upsert_witness :
    ((Repo.openInMemory.insertEntity (sampleEntity 1 .file "main.rs" 1000 1000)).insertEntity
        (sampleEntity 1 .file "lib.rs" 500 2000)).getEntity 1 =
      some (sampleEntity 1 .file "lib.rs" 1000 2000) ∧
    ((Repo.openInMemory.insertEntity (sampleEntity 1 .file "main.rs" 1000 1000)).insertEntity
        (sampleEntity 1 .file "lib.rs" 500 2000)).getEntity 2 = none := by
  have h := C6_insert_entity_upsert
    (Repo.openInMemory.insertEntity (sampleEntity 1 .file "main.rs" 1000 1000))
    (sampleEntity 1 .file "lib.rs" 500 2000)
    (sampleEntity 1 .file "main.rs" 1000 1000) (by decide)
  exact ⟨h.1.trans (by decide), (h.2 2 (by decide)).trans (by decide)⟩

-- ─── Event insert lemmas (claim C10) ─────────────────────────────────

theorem insertContexts_frame (eid : Nat) (ctxs : List Nat) (r : Repo) :
    (r.insertContexts eid ctxs).2.events = r.events ∧
    (r.insertContexts eid ctxs).2.entities = r.entities := by
  induction ctxs generalizing r with
  | nil => exact ⟨rfl, rfl⟩
  | cons c rest ih =>
    unfold Repo.insertContexts
    split
    · exact ⟨rfl, rfl⟩
    · split
      · exact ⟨rfl, rfl⟩
      · simpa using ih { r with eventContext := r.eventContext ++ [(eid, c)] }

theorem insertContexts_err (eid : Nat) (ctxs : List Nat) (r : Repo)
    (hbad : ∃ c ∈ ctxs, r.entities.any (fun row => row.id = c) = false) :
    (r.insertContexts eid ctxs).1.isSome = true := by
  induction ctxs generalizing r with
  | nil => simp at hbad
  | cons c rest ih =>
    unfold Repo.insertContexts
    split
    · simp
    · next hcond =>
      split
      · simp
      · obtain ⟨c', hc', hbadc⟩ := hbad
        rcases List.mem_cons.mp hc' with hc'' | hc''
        · subst hc''
          exact absurd (Or.inr (by simp [hbadc])) hcond
        · exact ih _ ⟨c', hc'', by simpa using hbadc⟩

/-- C10: `Repository::insert_event` is not atomic on error: when the event
row insert succeeds (fresh id, existing subject) but some context id does
not exist in `entities` (foreign-key violation), the call returns an
error, yet the event row stays persisted and the event count is
incremented. -/
theorem C10_insert_event_not_atomic (r : Repo) (event : Event)
    (subjectId : Nat) (ctxIds : List Nat)
    (hev : r.events.any (fun row => row.id = event.id) = false)
    (hsub : r.entities.any (fun row => row.id = subjectId) = true)
    (hbad : ∃ c ∈ ctxIds, r.entities.any (fun row => row.id = c) = false) :
    (r.insertEvent event subjectId ctxIds).1.isSome = true ∧
    (r.insertEvent event subjectId ctxIds).2.eventCount = r.eventCount + 1 := by
  unfold Repo.insertEvent
  rw [hev, if_neg (by simp), if_neg (by simp [hsub])]
  refine ⟨insertContexts_err event.id ctxIds _ (by exact hbad), ?_⟩
  have h2 := (insertContexts_frame event.id ctxIds
    { r with events := r.events ++
        [{ id := event.id, timestamp := event.timestamp, source := event.source,
           kind := event.kind, subject_id := subjectId, metadata := event.metadata }] }).1
  unfold Repo.eventCount
  rw [h2]
  simp

theorem C10_insert_event_not_atomic_witness :
    ((Repo.openInMemory.insertEntity (sampleEntity 1 .file "main.rs" 1000 1000)).insertEvent
        (sampleEvent 1500 "main.rs") 1 [2]).1.isSome = true ∧
    ((Repo.openInMemory.insertEntity (sampleEntity 1 .file "main.rs" 1000 1000)).insertEvent
        (sampleEvent 1500 "main.rs") 1 [2]).2.eventCount =
      (Repo.openInMemory.insertEntity (sampleEntity 1 .file "main.rs" 1000 1000)).eventCount + 1 :=
  C10_insert_event_not_atomic
    (Repo.openInMemory.insertEntity (sampleEntity 1 .file "main.rs" 1000 1000))
    (sampleEvent 1500 "main.rs") 1 [2]
    (by decide) (by decide) ⟨2, by decide, by decide⟩

-- ─── Engine drop path (claim C7) ─────────────────────────────────────

/-- C7: an `EmitEvent` whose subject identity is empty is dropped at
ingest: `handle_emit_event` answers `Ack` echoing the request id and the
whole engine state — repository rows, graph, ingest cache, collectors —
is exactly unchanged. -/
theorem C7_empty_identity_ack_unchanged (e : Engine) (requestId : String)
    (event : Event) (h : event.subject.identity = "") :
    e.handleEmitEvent requestId event = (Message.ack requestId, e) := by
  unfold Engine.handleEmitEvent IngestPipeline.process
  rw [if_pos h]

theorem C7_empty_identity_ack_unchanged_witness :
    sampleEngine.handleEmitEvent "req-1" (sampleEvent 5000 "") =
      (Message.ack "req-1", sampleEngine) :=
  C7_empty_identity_ack_unchanged sampleEngine "req-1" (sampleEvent 5000 "") rfl

-- ─── Empty search text (claim C8) ────────────────────────────────────

/-- C8 counterexample: on an engine with a fresh database, a `Search` with
empty text is answered with `Error{internal_error}` (SQLite FTS5 rejects
the empty `MATCH` pattern as a syntax error), not with a `QueryResult`
carrying an empty entity list. -/
theorem C8_empty_search_counterexample :
    sampleEngine.handleQuery "q1" { kind := .search "" 10 } =
      Message.error "q1" .internalError ("fts5: syntax error near \"" ++ "" ++ "\"") ∧
    sampleEngine.handleQuery "q1" { kind := .search "" 10 } ≠
      Message.new "q1" (.queryResult
        { entities := [], edges := [], events := [], sessions := [] }) := by
  exact ⟨by decide, by decide⟩

/-- C8 (amended): for every engine state and limit, a `Search` with empty
text makes the FTS `MATCH` operator fail (FTS5 syntax error on a tokenless
pattern), and the engine returns `Error{internal_error}` echoing the
request id; no `QueryResult` is produced. -/
theorem C8_empty_search_internal_error (e : Engine) (requestId : String)
    (limit : Nat) :
    e.handleQuery requestId { kind := .search "" limit } =
      Message.error requestId .internalError
        ("fts5: syntax error near \"" ++ "" ++ "\"") := rfl

-- ─── Frame size cap (claim C9) ───────────────────────────────────────

/-- C9 counterexample: `write_frame` computes the length prefix with
`payload.len() as u32`, which truncates modulo `2^32`: a payload of
exactly `2^32` bytes — far above 16 MiB — is accepted (its truncated
length is 0), so "refuses every payload exceeding 16 MiB" is false as
stated. -/
theorem C9_frame_too_large_counterexample :
    (List.replicate (2 ^ 32) (0 : Nat)).length = 2 ^ 32 ∧
    MAX_FRAME_SIZE < 2 ^ 32 ∧
    (writeFrame [] (List.replicate (2 ^ 32) 0)).isOk = true := by
  refine ⟨List.length_replicate _ _, by decide, ?_⟩
  have hlen : (List.replicate (2 ^ 32) (0 : Nat)).length % 2 ^ 32 = 0 := by
    rw [List.length_replicate, Nat.mod_self]
  simp only [writeFrame]
  rw [hlen, if_neg (by decide)]
  rfl

/-- C9 (amended): a frame whose 32-bit little-endian length prefix exceeds
16 MiB is rejected as `TooLarge` with the remaining stream untouched (no
payload byte read); `write_frame` refuses a payload whose length,
truncated to `u32` (`len as u32`, i.e. `% 2^32`), exceeds 16 MiB — which
for payloads below 4 GiB is exactly "exceeds 16 MiB". -/
theorem C9_frame_too_large_amended (b0 b1 b2 b3 : Nat) (rest out payload : List Nat)
    (hr : MAX_FRAME_SIZE < fromLeBytes b0 b1 b2 b3)
    (hw : MAX_FRAME_SIZE < payload.length % 2 ^ 32) :
    readFrame (b0 :: b1 :: b2 :: b3 :: rest) =
      (.error (.tooLarge (fromLeBytes b0 b1 b2 b3)), rest) ∧
    writeFrame out payload = .error (.tooLarge (payload.length % 2 ^ 32)) := by
  constructor
  · simp only [readFrame]
    rw [if_pos hr]
  · simp only [writeFrame]
    rw [if_pos hw]

theorem C9_frame_too_large_amended_witness :
    readFrame [0, 0, 0, 2, 9, 9] = (.error (.tooLarge (2 ^ 25)), [9, 9]) ∧
    writeFrame [] (List.replicate (MAX_FRAME_SIZE + 1) 0) =
      .error (.tooLarge (MAX_FRAME_SIZE + 1)) := by
  have h := C9_frame_too_large_amended 0 0 0 2 [9, 9] []
    (List.replicate (MAX_FRAME_SIZE + 1) 0) (by decide)
    (by rw [List.length_replicate, Nat.mod_eq_of_lt (by decide)]; decide)
  constructor
  · have hfl : fromLeBytes 0 0 0 2 = 2 ^ 25 := by decide
    rw [← hfl]
    exact h.1
  · have hlen : (List.replicate (MAX_FRAME_SIZE + 1) (0 : Nat)).length % 2 ^ 32 =
        MAX_FRAME_SIZE + 1 := by
      rw [List.length_replicate, Nat.mod_eq_of_lt (by decide)]
    conv_rhs => rw [← hlen]
    exact h.2

-- ─── Entity last_seen monotonicity (claim C5) ────────────────────────

theorem insertEntity_entities_mem (r : Repo) (e : Entity)
    (hany : r.entities.any (fun row => row.id = e.id) = true) :
    (r.insertEntity e).entities = r.entities.map (entityUpdate e) := by
  unfold Repo.insertEntity
  simp [hany]

theorem insertEntity_entities_new (r : Repo) (e : Entity)
    (hany : r.entities.any (fun row => row.id = e.id) = false) :
    (r.insertEntity e).entities = r.entities ++ [e] := by
  unfold Repo.insertEntity
  simp [hany]

theorem ids_map_entityUpdate (e : Entity) (l : List Entity) :
    (l.map (entityUpdate e)).map (fun row => row.id) = l.map (fun row => row.id) := by
  rw [List.map_map]
  apply List.map_congr_left
  intro row _
  exact entityUpdate_id e row

theorem entities_any_id_eq_false (l : List Entity) (n : Nat)
    (hb : ∀ ent ∈ l, ent.id < n) :
    l.any (fun row => row.id = n) = false := by
  rw [List.any_eq_false]
  intro ent hm
  simpa using Nat.ne_of_lt (hb ent hm)

theorem resolveEntityRef_found (st : Store) (r : EntityRef) (t : Int) (existing : Entity)
    (hfind : st.repo.findEntityByKindAndName r.kind r.identity = some existing) :
    (Linker.resolveEntityRef st r t).2.repo =
      st.repo.insertEntity { existing with last_seen := t } ∧
    (Linker.resolveEntityRef st r t).2.nextId = st.nextId := by
  unfold Linker.resolveEntityRef
  rw [hfind]
  exact ⟨rfl, rfl⟩

theorem resolveEntityRef_new (st : Store) (r : EntityRef) (t : Int)
    (hfind : st.repo.findEntityByKindAndName r.kind r.identity = none) :
    (Linker.resolveEntityRef st r t).2.repo = st.repo.insertEntity
      { id := st.nextId, kind := r.kind, name := r.identity,
        attributes := r.attributes, first_seen := t, last_seen := t } ∧
    (Linker.resolveEntityRef st r t).2.nextId = st.nextId + 1 := by
  unfold Linker.resolveEntityRef
  rw [hfind]
  exact ⟨rfl, rfl⟩

theorem resolve_step_mono (st : Store) (entityRef : EntityRef) (t : Int)
    (hwf : EntWF st) (hts : ∀ ent ∈ st.repo.entities, ent.last_seen ≤ t) :
    EntWF (Linker.resolveEntityRef st entityRef t).2 ∧
    (∀ ent' ∈ (Linker.resolveEntityRef st entityRef t).2.repo.entities,
        ent'.last_seen ≤ t) ∧
    (∀ id ent, st.repo.getEntity id = some ent →
        ∃ ent', (Linker.resolveEntityRef st entityRef t).2.repo.getEntity id = some ent' ∧
          ent.last_seen ≤ ent'.last_seen) := by
  obtain ⟨hnd, hlt⟩ := hwf
  cases hfind : st.repo.findEntityByKindAndName entityRef.kind entityRef.identity with
  | some existing =>
    obtain ⟨hrepo, hnext⟩ := resolveEntityRef_found st entityRef t existing hfind
    have hmem : existing ∈ st.repo.entities := List.mem_of_find?_eq_some hfind
    have hany : st.repo.entities.any
        (fun row => row.id = ({ existing with last_seen := t } : Entity).id) = true := by
      rw [List.any_eq_true]
      exact ⟨existing, hmem, by simp⟩
    have hent := insertEntity_entities_mem st.repo { existing with last_seen := t } hany
    refine ⟨⟨?_, ?_⟩, ?_, ?_⟩
    · rw [hrepo, hent, ids_map_entityUpdate]
      exact hnd
    · intro ent hm
      rw [hrepo, hent] at hm
      rw [hnext]
      obtain ⟨row, hrow, hdef⟩ := List.mem_map.mp hm
      rw [← hdef, entityUpdate_id]
      exact hlt row hrow
    · intro ent' hm
      rw [hrepo, hent] at hm
      obtain ⟨row, hrow, hdef⟩ := List.mem_map.mp hm
      rw [← hdef]
      unfold entityUpdate
      split
      · exact le_refl t
      · exact hts row hrow
    · intro id ent h
      unfold Repo.getEntity at h ⊢
      rw [hrepo, hent]
      by_cases hid : id = ({ existing with last_seen := t } : Entity).id
      · subst hid
        rw [find?_map_entityUpdate_self { existing with last_seen := t } st.repo.entities ent h]
        refine ⟨_, rfl, ?_⟩
        exact hts ent (List.mem_of_find?_eq_some h)
      · rw [find?_map_entityUpdate_other { existing with last_seen := t } st.repo.entities id hid]
        exact ⟨ent, h, le_refl _⟩
  | none =>
    obtain ⟨hrepo, hnext⟩ := resolveEntityRef_new st entityRef t hfind
    have hany := entities_any_id_eq_false st.repo.entities st.nextId hlt
    have hent := insertEntity_entities_new st.repo
      { id := st.nextId, kind := entityRef.kind, name := entityRef.identity,
        attributes := entityRef.attributes, first_seen := t, last_seen := t } hany
    refine ⟨⟨?_, ?_⟩, ?_, ?_⟩
    · rw [hrepo, hent, List.map_append, List.nodup_append]
      refine ⟨hnd, by simp, ?_⟩
      intro x hx
      simp only [List.map_cons, List.map_nil, List.mem_singleton]
      obtain ⟨row, hrow, hdef⟩ := List.mem_map.mp hx
      intro hcon
      rw [hcon] at hdef
      exact absurd (hdef ▸ hlt row hrow) (lt_irrefl st.nextId)
    · intro ent hm
      rw [hrepo, hent] at hm
      rw [hnext]
      rcases List.mem_append.mp hm with hm' | hm'
      · exact Nat.lt_succ_of_lt (hlt ent hm')
      · simp only [List.mem_singleton] at hm'
        rw [hm']
        exact Nat.lt_succ_self _
    · intro ent' hm
      rw [hrepo, hent] at hm
      rcases List.mem_append.mp hm with hm' | hm'
      · exact hts ent' hm'
      · simp only [List.mem_singleton] at hm'
        rw [hm']
    · intro id ent h
      unfold Repo.getEntity at h ⊢
      rw [hrepo, hent, List.find?_append, h]
      exact ⟨ent, rfl, le_refl _⟩

/-- C5 counterexample: resolving the same `(file, "main.rs")` reference at
timestamp 2000 and then at 1000 (an out-of-order event) makes the stored
`last_seen` decrease from 2000 to 1000: `resolve_entity_ref` assigns the
event timestamp with no monotonicity guard, so "last_seen never
decreases" fails as stated. -/
theorem C5_last_seen_counterexample :
    ((resolveFold emptyStore [(sampleRef, 2000)]).repo.getEntity 0).map
        (fun ent => ent.last_seen) = some 2000 ∧
    ((resolveFold emptyStore [(sampleRef, 2000), (sampleRef, 1000)]).repo.getEntity 0).map
        (fun ent => ent.last_seen) = some 1000 ∧
    ¬ ((2000 : Int) ≤ 1000) := by decide

/-- C5 (amended): `resolve_entity_ref` overwrites `last_seen` with the
processed event's timestamp unconditionally, so across a sequence of
resolutions an entity's stored `last_seen` never decreases provided the
timestamps run non-decreasing and not below any stored `last_seen` (as
when events carry current wall-clock times); an out-of-order timestamp
can decrease it. -/
theorem C5_last_seen_monotone_amended (st : Store) (steps : List (EntityRef × Int))
    (hwf : EntWF st)
    (hts : ∀ ent ∈ st.repo.entities, ∀ p ∈ steps, ent.last_seen ≤ p.2)
    (hmono : (steps.map (fun p => p.2)).Pairwise (· ≤ ·)) :
    ∀ id ent, st.repo.getEntity id = some ent →
      ∃ ent', (resolveFold st steps).repo.getEntity id = some ent' ∧
        ent.last_seen ≤ ent'.last_seen := by
  induction steps generalizing st with
  | nil =>
    intro id ent h
    exact ⟨ent, h, le_refl _⟩
  | cons p rest ih =>
    intro id ent h
    have hts₁ : ∀ ent ∈ st.repo.entities, ent.last_seen ≤ p.2 :=
      fun ent hm => hts ent hm p (List.mem_cons_self _ _)
    obtain ⟨hwf', hall, hstep⟩ := resolve_step_mono st p.1 p.2 ⟨hwf.1, hwf.2⟩ hts₁
    have hmono' : (∀ (a' : Int) (x : EntityRef), (x, a') ∈ rest → p.2 ≤ a') ∧
        List.Pairwise (fun x1 x2 => x1 ≤ x2) (rest.map (fun p => p.2)) := by
      simpa using hmono
    obtain ⟨ent1, h1, hle1⟩ := hstep id ent h
    have hts' : ∀ ent' ∈ (Linker.resolveEntityRef st p.1 p.2).2.repo.entities,
        ∀ q ∈ rest, ent'.last_seen ≤ q.2 := by
      intro ent' hm q hq
      exact le_trans (hall ent' hm) (hmono'.1 q.2 q.1 hq)
    obtain ⟨ent', h2, hle2⟩ := ih _ hwf' hts' hmono'.2 id ent1 h1
    exact ⟨ent', h2, le_trans hle1 hle2⟩

theorem C5_last_seen_monotone_amended_witness :
    ∃ ent', (resolveFold sampleStore [(sampleRef, 1500), (sampleRef, 2000)]).repo.getEntity 1 =
        some ent' ∧ (sampleEntity 1 .file "main.rs" 1000 1000).last_seen ≤ ent'.last_seen :=
  C5_last_seen_monotone_amended sampleStore [(sampleRef, 1500), (sampleRef, 2000)]
    ⟨by decide, by decide⟩ (by decide) (by decide) 1
    (sampleEntity 1 .file "main.rs" 1000 1000) (by decide)

-- ─── Edge creation and reinforcement (claim C3) ──────────────────────

theorem edgeUpdate_id (e row : Edge) : (edgeUpdate e row).id = row.id := by
  unfold edgeUpdate; split <;> rfl

theorem edgeUpdate_key (e row : Edge) :
    (edgeUpdate e row).fromId = row.fromId ∧ (edgeUpdate e row).toId = row.toId ∧
    (edgeUpdate e row).relation = row.relation := by
  unfold edgeUpdate; split <;> exact ⟨rfl, rfl, rfl⟩

theorem edges_any_id_eq_false (l : List Edge) (n : Nat)
    (hb : ∀ ed ∈ l, ed.id < n) :
    l.any (fun row => row.id = n) = false := by
  rw [List.any_eq_false]
  intro ed hm
  simpa using Nat.ne_of_lt (hb ed hm)

theorem insertEdge_conflict (r : Repo) (edge : Edge)
    (hany : r.edges.any (fun row => row.id = edge.id) = true) :
    r.insertEdge edge = (none, { r with edges := r.edges.map (edgeUpdate edge) }) := by
  unfold Repo.insertEdge
  rw [hany]
  rw [if_pos rfl]

theorem insertEdge_fresh (r : Repo) (edge : Edge)
    (hfresh : r.edges.any (fun row => row.id = edge.id) = false)
    (hfk1 : r.entities.any (fun row => row.id = edge.fromId) = true)
    (hfk2 : r.entities.any (fun row => row.id = edge.toId) = true) :
    r.insertEdge edge = (none, { r with edges := r.edges ++ [edge] }) := by
  unfold Repo.insertEdge
  rw [hfresh, hfk1, hfk2]
  rw [if_neg (by decide), if_neg (by decide)]

theorem findEdge_map_update (r : Repo) (f t : Nat) (rel : Relation) (ex : Edge)
    (hfind : r.findEdge f t rel = some ex) (s : ℚ) (lr : Int) :
    Repo.findEdge
      { r with edges := r.edges.map (edgeUpdate { ex with strength := s, last_reinforced := lr }) }
      f t rel = some { ex with strength := s, last_reinforced := lr } := by
  unfold Repo.findEdge at hfind ⊢
  rw [List.find?_map]
  have hcomp : ((fun row : Edge =>
      decide (row.fromId = f ∧ row.toId = t ∧ row.relation = rel)) ∘
        edgeUpdate { ex with strength := s, last_reinforced := lr }) =
      (fun row : Edge => decide (row.fromId = f ∧ row.toId = t ∧ row.relation = rel)) := by
    funext row
    obtain ⟨h1, h2, h3⟩ := edgeUpdate_key { ex with strength := s, last_reinforced := lr } row
    simp [Function.comp, h1, h2, h3]
  rw [hcomp, hfind]
  unfold edgeUpdate
  rw [Option.map_some']
  rw [if_pos rfl]

theorem findEdge_append_new (r : Repo) (f t : Nat) (rel : Relation) (ed : Edge)
    (hnone : r.findEdge f t rel = none)
    (hf : ed.fromId = f) (ht : ed.toId = t) (hrel : ed.relation = rel) :
    Repo.findEdge { r with edges := r.edges ++ [ed] } f t rel = some ed := by
  unfold Repo.findEdge at hnone ⊢
  rw [List.find?_append, hnone]
  simp [hf, ht, hrel]

theorem ensureEdge_create_spec (st : Store) (f t : Nat) (rel : Relation) (ts : Int)
    (hnone : st.repo.findEdge f t rel = none)
    (hfresh : st.repo.edges.any (fun row => row.id = st.nextId) = false)
    (hfk1 : st.repo.entities.any (fun row => row.id = f) = true)
    (hfk2 : st.repo.entities.any (fun row => row.id = t) = true) :
    (Linker.ensureEdge st f t rel ts).1 = none ∧
    (Linker.ensureEdge st f t rel ts).2.repo.findEdge f t rel =
      some { id := st.nextId, fromId := f, toId := t, relation := rel,
             strength := 0.5, created_at := ts, last_reinforced := ts } ∧
    (Linker.ensureEdge st f t rel ts).2.repo.edges = st.repo.edges ++
      [{ id := st.nextId, fromId := f, toId := t, relation := rel,
         strength := 0.5, created_at := ts, last_reinforced := ts }] ∧
    (Linker.ensureEdge st f t rel ts).2.nextId = st.nextId + 1 := by
  have hins := insertEdge_fresh st.repo
    { id := st.nextId, fromId := f, toId := t, relation := rel,
      strength := 0.5, created_at := ts, last_reinforced := ts } hfresh hfk1 hfk2
  have hstep : Linker.ensureEdge st f t rel ts =
      (none, { st with
        repo := { st.repo with edges := st.repo.edges ++
          [{ id := st.nextId, fromId := f, toId := t, relation := rel,
             strength := 0.5, created_at := ts, last_reinforced := ts }] },
        graph := st.graph.addEdge
          { id := st.nextId, fromId := f, toId := t, relation := rel,
            strength := 0.5, created_at := ts, last_reinforced := ts },
        nextId := st.nextId + 1 }) := by
    unfold Linker.ensureEdge
    rw [hnone]
    dsimp only
    rw [hins]
  rw [hstep]
  exact ⟨rfl, findEdge_append_new st.repo f t rel _ hnone rfl rfl rfl, rfl, rfl⟩

theorem ensureEdge_reinforce_spec (st : Store) (f t : Nat) (rel : Relation) (ts : Int)
    (ex : Edge) (hsome : st.repo.findEdge f t rel = some ex) :
    (Linker.ensureEdge st f t rel ts).1 = none ∧
    (Linker.ensureEdge st f t rel ts).2.repo.findEdge f t rel =
      some { ex with strength := min (ex.strength + 0.1) 1.0, last_reinforced := ts } ∧
    (Linker.ensureEdge st f t rel ts).2.repo.edges =
      st.repo.edges.map
        (edgeUpdate { ex with strength := min (ex.strength + 0.1) 1.0, last_reinforced := ts }) ∧
    (Linker.ensureEdge st f t rel ts).2.nextId = st.nextId := by
  have hmem : ex ∈ st.repo.edges := List.mem_of_find?_eq_some hsome
  have hany : st.repo.edges.any
      (fun row => row.id = ({ ex with strength := min (ex.strength + 0.1) 1.0, last_reinforced := ts } : Edge).id) = true := by
    rw [List.any_eq_true]
    exact ⟨ex, hmem, by simp⟩
  have hconf := insertEdge_conflict st.repo
    { ex with strength := min (ex.strength + 0.1) 1.0, last_reinforced := ts } hany
  have hstep : Linker.ensureEdge st f t rel ts =
      (none, { st with
        repo := { st.repo with edges := st.repo.edges.map (edgeUpdate { ex with strength := min (ex.strength + 0.1) 1.0, last_reinforced := ts }) },
        graph := st.graph.addEdge { ex with strength := min (ex.strength + 0.1) 1.0, last_reinforced := ts } }) := by
    unfold Linker.ensureEdge
    rw [hsome]
    dsimp only
    rw [hconf]
  rw [hstep]
  exact ⟨rfl, findEdge_map_update st.repo f t rel ex hsome
    (min (ex.strength + 0.1) 1.0) ts, rfl, rfl⟩

theorem map_edgeUpdate_bound (l : List Edge) (u : Edge) (n : Nat)
    (hb : ∀ e ∈ l, e.id < n) :
    ∀ e ∈ l.map (edgeUpdate u), e.id < n := by
  intro e hm
  obtain ⟨row, hrow, hdef⟩ := List.mem_map.mp hm
  rw [← hdef, edgeUpdate_id]
  exact hb row hrow

/-- C3: when both endpoint entities satisfy the `edges` foreign keys —
they are stored entity rows, as at every call site, where `link` resolves
the subject and context entities before edging them — `ensure_edge`
creates an absent `(from, to, relation)` edge without error, with strength
exactly 0.5 and `created_at = last_reinforced =` the event timestamp;
reinforcing an existing edge succeeds unconditionally (the `DO UPDATE` arm
touches no foreign-key column), setting its strength to
`min(strength + 0.1, 1.0)` and updating `last_reinforced`; and after any
nonempty sequence of `ensure_edge` calls starting from an absent edge the
stored strength lies in [0.5, 1.0]. -/
theorem C3_ensure_edge_strength (st : Store) (f t : Nat) (rel : Relation)
    (hb : ∀ ed ∈ st.repo.edges, ed.id < st.nextId)
    (hfk1 : st.repo.entities.any (fun row => row.id = f) = true)
    (hfk2 : st.repo.entities.any (fun row => row.id = t) = true) :
    (∀ ts : Int, st.repo.findEdge f t rel = none →
      (Linker.ensureEdge st f t rel ts).1 = none ∧
      (Linker.ensureEdge st f t rel ts).2.repo.findEdge f t rel =
        some { id := st.nextId, fromId := f, toId := t, relation := rel,
               strength := 0.5, created_at := ts, last_reinforced := ts }) ∧
    (∀ (ts : Int) (ex : Edge), st.repo.findEdge f t rel = some ex →
      (Linker.ensureEdge st f t rel ts).1 = none ∧
      (Linker.ensureEdge st f t rel ts).2.repo.findEdge f t rel =
        some { ex with strength := min (ex.strength + 0.1) 1.0,
                       last_reinforced := ts }) ∧
    (∀ tss : List Int, tss ≠ [] → st.repo.findEdge f t rel = none →
      ∃ e, (tss.foldl (fun s τ => (Linker.ensureEdge s f t rel τ).2) st).repo.findEdge
          f t rel = some e ∧ (0.5 : ℚ) ≤ e.strength ∧ e.strength ≤ 1.0) := by
  have hiter : ∀ (tss : List Int) (st' : Store),
      (∀ ed ∈ st'.repo.edges, ed.id < st'.nextId) →
      (∃ e, st'.repo.findEdge f t rel = some e ∧
        (0.5 : ℚ) ≤ e.strength ∧ e.strength ≤ 1.0) →
      ∃ e, (tss.foldl (fun s τ => (Linker.ensureEdge s f t rel τ).2) st').repo.findEdge
          f t rel = some e ∧ (0.5 : ℚ) ≤ e.strength ∧ e.strength ≤ 1.0 := by
    intro tss
    induction tss with
    | nil => intro st' _ h; simpa using h
    | cons τ rest ih =>
      intro st' hb' ⟨e, hfind, h1, h2⟩
      obtain ⟨-, hfe, hedges, hnext⟩ := ensureEdge_reinforce_spec st' f t rel τ e hfind
      rw [List.foldl_cons]
      apply ih
      · intro ed hm
        rw [hedges] at hm
        rw [hnext]
        exact map_edgeUpdate_bound st'.repo.edges _ st'.nextId hb' ed hm
      · refine ⟨_, hfe, ?_, ?_⟩
        · exact le_min (by linarith) (by norm_num)
        · exact min_le_right _ _
  refine ⟨?_, ?_, ?_⟩
  · intro ts hnone
    obtain ⟨h1, h2, -, -⟩ := ensureEdge_create_spec st f t rel ts hnone
      (edges_any_id_eq_false st.repo.edges st.nextId hb) hfk1 hfk2
    exact ⟨h1, h2⟩
  · intro ts ex hsome
    obtain ⟨h1, h2, -, -⟩ := ensureEdge_reinforce_spec st f t rel ts ex hsome
    exact ⟨h1, h2⟩
  · intro tss hne hnone
    cases tss with
    | nil => exact absurd rfl hne
    | cons τ rest =>
      rw [List.foldl_cons]
      obtain ⟨-, hfe, hedges, hnext⟩ := ensureEdge_create_spec st f t rel τ hnone
        (edges_any_id_eq_false st.repo.edges st.nextId hb) hfk1 hfk2
      apply hiter rest
      · intro ed hm
        rw [hedges] at hm
        rw [hnext]
        rcases List.mem_append.mp hm with hm' | hm'
        · exact Nat.lt_succ_of_lt (hb ed hm')
        · simp only [List.mem_singleton] at hm'
          rw [hm']
          exact Nat.lt_succ_self _
      · refine ⟨_, hfe, ?_, ?_⟩
        · norm_num
        · norm_num

theorem C3_ensure_edge_strength_witness :
    ∃ e, (([1000, 2000] : List Int).foldl
        (fun s τ => (Linker.ensureEdge s 1 2 .belongsTo τ).2) edgeSampleStore).repo.findEdge
        1 2 .belongsTo = some e ∧ (0.5 : ℚ) ≤ e.strength ∧ e.strength ≤ 1.0 :=
  (C3_ensure_edge_strength edgeSampleStore 1 2 .belongsTo (by decide) (by decide)
    (by decide)).2.2 [1000, 2000] (by decide) (by decide)

-- ─── Session gap boundary (claim C4) ─────────────────────────────────

/-- C4: in `build_sessions`, a successor event with the same app name and
a gap (`event.timestamp − current end`) strictly below `session_gap_ms`
extends the current session — the end advances to the event's timestamp,
the count increments, the title is appended unless already present —
while a different app, or a gap of exactly `session_gap_ms` or more,
finalizes the current session and starts a new one. -/
theorem C4_session_gap_boundary (gap : Nat) (e1 e2 : ResolvedEvent) :
    (e2.app_name = e1.app_name → e2.timestamp - e1.timestamp < (gap : Int) →
      buildSessions gap [e1, e2] =
        [makeSession e1.app_name
          (e1.window_title.toList ++
            e2.window_title.toList.filter (fun s => s ∉ e1.window_title.toList))
          e1.timestamp e2.timestamp 2]) ∧
    ((e2.app_name ≠ e1.app_name ∨ (gap : Int) ≤ e2.timestamp - e1.timestamp) →
      buildSessions gap [e1, e2] =
        [makeSession e1.app_name e1.window_title.toList e1.timestamp e1.timestamp 1,
         makeSession e2.app_name e2.window_title.toList e2.timestamp e2.timestamp 1]) := by
  constructor
  · intro happ hgap
    unfold buildSessions buildGo
    rw [if_pos ⟨happ, hgap⟩]
    unfold buildGo
    rcases h1 : e1.window_title with _ | t1 <;> rcases h2 : e2.window_title with _ | t2 <;>
      simp [extendState, initState, makeSession, Option.toList, h1, h2]
    by_cases ht : t2 = t1
    · simp [ht]
    · simp [ht, Ne.symm ht]
  · intro hsplit
    unfold buildSessions buildGo
    rw [if_neg (by
      rintro ⟨ha, hg⟩
      rcases hsplit with hs | hs
      · exact hs ha
      · exact absurd hg (not_lt.mpr hs))]
    unfold buildGo
    rcases h1 : e1.window_title with _ | t1 <;> rcases h2 : e2.window_title with _ | t2 <;>
      simp [initState, makeSession, Option.toList, h1, h2]

theorem C4_session_gap_boundary_witness :
    (buildSessions 30000
        [{ timestamp := 1000, app_name := "VS Code", window_title := some "main.rs" },
         { timestamp := 4000, app_name := "VS Code", window_title := some "lib.rs" }] =
      [makeSession "VS Code"
        ((some "main.rs").toList ++
          (some "lib.rs").toList.filter (fun s => s ∉ (some "main.rs").toList))
        1000 4000 2]) ∧
    (buildSessions 30000
        [{ timestamp := 1000, app_name := "VS Code", window_title := none },
         { timestamp := 31000, app_name := "VS Code", window_title := none }] =
      [makeSession "VS Code" (none : Option String).toList 1000 1000 1,
       makeSession "VS Code" (none : Option String).toList 31000 31000 1]) :=
  ⟨(C4_session_gap_boundary 30000
      { timestamp := 1000, app_name := "VS Code", window_title := some "main.rs" }
      { timestamp := 4000, app_name := "VS Code", window_title := some "lib.rs" }).1
      rfl (by decide),
   (C4_session_gap_boundary 30000
      { timestamp := 1000, app_name := "VS Code", window_title := none }
      { timestamp := 31000, app_name := "VS Code", window_title := none }).2
      (Or.inr (by decide))⟩

-- ─── Aggregator watermark lemmas (claim C2) ──────────────────────────

theorem foldl_insertSession_spec (l : List Session) (r : Repo) :
    (l.foldl Repo.insertSession r).events = r.events ∧
    (l.foldl Repo.insertSession r).sessions = r.sessions ++ l := by
  induction l generalizing r with
  | nil => simp
  | cons s rest ih =>
    rw [List.foldl_cons]
    obtain ⟨h1, h2⟩ := ih (r.insertSession s)
    refine ⟨h1, ?_⟩
    rw [h2]
    simp [Repo.insertSession]

theorem resolveApp_timestamps (repo : Repo) (es : List StoredEvent) :
    ∀ cache, (resolveApp repo es cache).map (fun e => e.timestamp) =
      es.map (fun e => e.timestamp) := by
  induction es with
  | nil => intro cache; rfl
  | cons e rest ih =>
    intro cache
    show e.timestamp :: (resolveApp repo rest _).map (fun e => e.timestamp) = _
    rw [ih, List.map_cons]

theorem mem_insertSortedBy (le : α → α → Bool) (e : α) :
    ∀ (l : List α) (a : α), a ∈ insertSortedBy le e l ↔ a = e ∨ a ∈ l := by
  intro l
  induction l with
  | nil => intro a; simp [insertSortedBy]
  | cons x xs ih =>
    intro a
    unfold insertSortedBy
    split
    · simp
    · rw [List.mem_cons, ih a, List.mem_cons]
      tauto

theorem mem_sortBy (le : α → α → Bool) :
    ∀ (l : List α) (a : α), a ∈ sortBy le l ↔ a ∈ l := by
  intro l
  induction l with
  | nil => intro a; exact Iff.rfl
  | cons x xs ih =>
    intro a
    show a ∈ insertSortedBy le x (sortBy le xs) ↔ _
    rw [mem_insertSortedBy, ih, List.mem_cons]

theorem sorted_insertSortedBy (le : α → α → Bool)
    (htot : ∀ a b, le a b = true ∨ le b a = true)
    (htrans : ∀ a b c, le a b = true → le b c = true → le a c = true) (e : α) :
    ∀ l : List α, l.Pairwise (fun a b => le a b = true) →
      (insertSortedBy le e l).Pairwise (fun a b => le a b = true) := by
  intro l
  induction l with
  | nil => intro _; simp [insertSortedBy]
  | cons x xs ih =>
    intro hp
    obtain ⟨hx, hxs⟩ := List.pairwise_cons.mp hp
    unfold insertSortedBy
    split
    · next hle =>
      rw [List.pairwise_cons]
      refine ⟨?_, hp⟩
      intro b hb
      rcases List.mem_cons.mp hb with h | h
      · rw [h]; exact hle
      · exact htrans e x b hle (hx b h)
    · next hnle =>
      rw [List.pairwise_cons]
      constructor
      · intro b hb
        rcases (mem_insertSortedBy le e xs b).mp hb with h | h
        · rw [h]
          rcases htot x e with ht | ht
          · exact ht
          · exact absurd ht hnle
        · exact hx b h
      · exact ih hxs

theorem sorted_sortBy (le : α → α → Bool)
    (htot : ∀ a b, le a b = true ∨ le b a = true)
    (htrans : ∀ a b c, le a b = true → le b c = true → le a c = true) :
    ∀ l : List α, (sortBy le l).Pairwise (fun a b => le a b = true) := by
  intro l
  induction l with
  | nil => exact List.Pairwise.nil
  | cons x xs ih =>
    exact sorted_insertSortedBy le htot htrans x (sortBy le xs) ih

theorem mem_eventsInRange (r : Repo) (a b : Int) (e : StoredEvent) :
    e ∈ r.eventsInRange a b ↔
      e ∈ r.events ∧ a ≤ e.timestamp ∧ e.timestamp ≤ b := by
  unfold Repo.eventsInRange
  rw [mem_sortBy, List.mem_filter]
  simp [and_comm]

theorem eventsInRange_sorted (r : Repo) (a b : Int) :
    (r.eventsInRange a b).Pairwise (fun x y => x.timestamp ≤ y.timestamp) := by
  unfold Repo.eventsInRange
  have h := sorted_sortBy (fun x y : StoredEvent => decide (x.timestamp ≤ y.timestamp))
    (fun a b => by
      simp only [decide_eq_true_eq]
      exact le_total a.timestamp b.timestamp)
    (fun a b c hab hbc => by
      simp only [decide_eq_true_eq] at hab hbc ⊢
      exact le_trans hab hbc)
    (r.events.filter (fun e => a ≤ e.timestamp ∧ e.timestamp ≤ b))
  exact h.imp (fun hxy => by simpa using hxy)

theorem mem_appEventsOf (repo : Repo) (now : Int) (e : StoredEvent) :
    e ∈ appEventsOf repo now ↔
      e ∈ repo.events ∧ repo.lastSessionEndTime.getD 0 ≤ e.timestamp ∧
      e.timestamp ≤ now ∧ e.source = CollectorSource.appMonitor ∧
      (repo.lastSessionEndTime.getD 0 < e.timestamp ∨
        repo.lastSessionEndTime.getD 0 = 0) := by
  unfold appEventsOf
  rw [List.mem_filter, List.mem_filter, mem_eventsInRange]
  simp only [decide_eq_true_eq]
  tauto

theorem appEventsOf_sorted (repo : Repo) (now : Int) :
    (appEventsOf repo now).Pairwise (fun x y => x.timestamp ≤ y.timestamp) := by
  unfold appEventsOf
  exact ((eventsInRange_sorted repo _ now).filter _).filter _

theorem getLastD_cons_mem (a : Int) (l : List Int) (d : Int) :
    (a :: l).getLastD d ∈ a :: l := by
  induction l generalizing a with
  | nil => simp
  | cons b rest ih =>
    rw [List.getLastD_cons]
    exact List.mem_cons_of_mem a (ih b)

theorem sorted_le_getLastD : ∀ l : List Int, l.Pairwise (· ≤ ·) →
    ∀ x ∈ l, ∀ d : Int, x ≤ l.getLastD d := by
  intro l
  induction l with
  | nil => intro _ x hx; simp at hx
  | cons a rest ih =>
    intro hs x hx d
    obtain ⟨ha, hrest⟩ := List.pairwise_cons.mp hs
    rw [List.getLastD_cons]
    rcases List.mem_cons.mp hx with h | h
    · subst h
      cases rest with
      | nil => simp
      | cons b r => exact ha _ (getLastD_cons_mem b r x)
    · exact ih hrest x h a

theorem buildGo_end_le (gap : Nat) (B : Int) :
    ∀ (es : List ResolvedEvent) (st : BuildState), st.currentEnd ≤ B →
      (∀ e ∈ es, e.timestamp ≤ B) →
      ∀ s ∈ buildGo gap st es, s.end_time ≤ B := by
  intro es
  induction es with
  | nil =>
    intro st hst _ s hs
    simp only [buildGo, List.mem_singleton] at hs
    rw [hs]
    exact hst
  | cons e rest ih =>
    intro st hst hall s hs
    unfold buildGo at hs
    split at hs
    · exact ih (extendState st e) (hall e (List.mem_cons_self _ _))
        (fun e' he' => hall e' (List.mem_cons_of_mem _ he')) s hs
    · rcases List.mem_cons.mp hs with h | h
      · rw [h]; exact hst
      · exact ih (initState e) (hall e (List.mem_cons_self _ _))
          (fun e' he' => hall e' (List.mem_cons_of_mem _ he')) s h

theorem buildGo_last_end (gap : Nat) :
    ∀ (es : List ResolvedEvent) (st : BuildState),
      ∃ s ∈ buildGo gap st es,
        s.end_time = (es.map (fun e => e.timestamp)).getLastD st.currentEnd := by
  intro es
  induction es with
  | nil =>
    intro st
    exact ⟨_, List.mem_singleton_self _, rfl⟩
  | cons e rest ih =>
    intro st
    unfold buildGo
    split
    · obtain ⟨s, hs, he⟩ := ih (extendState st e)
      refine ⟨s, hs, ?_⟩
      rw [he, List.map_cons, List.getLastD_cons]
      rfl
    · obtain ⟨s, hs, he⟩ := ih (initState e)
      refine ⟨s, List.mem_cons_of_mem _ hs, ?_⟩
      rw [he, List.map_cons, List.getLastD_cons]
      rfl

theorem buildSessions_spec (gap : Nat) (es : List ResolvedEvent) (hne : es ≠ []) :
    (∃ s ∈ buildSessions gap es,
        s.end_time = (es.map (fun e => e.timestamp)).getLastD 0) ∧
    (∀ B : Int, (∀ e ∈ es, e.timestamp ≤ B) →
        ∀ s ∈ buildSessions gap es, s.end_time ≤ B) := by
  cases es with
  | nil => exact absurd rfl hne
  | cons e rest =>
    constructor
    · obtain ⟨s, hs, he⟩ := buildGo_last_end gap rest (initState e)
      refine ⟨s, hs, ?_⟩
      rw [he, List.map_cons, List.getLastD_cons]
      rfl
    · intro B hall s hs
      exact buildGo_end_le gap B rest (initState e) (hall e (List.mem_cons_self _ _))
        (fun e' h => hall e' (List.mem_cons_of_mem _ h)) s hs

theorem int_max?_eq_some_iff (xs : List Int) (a : Int) :
    xs.max? = some a ↔ a ∈ xs ∧ ∀ b ∈ xs, b ≤ a :=
  @List.max?_eq_some_iff Int a _ _ ⟨@fun _ _ h1 h2 => le_antisymm h1 h2⟩
    (fun a => le_refl a) (fun a b => max_choice a b) (fun _ _ _ => max_le_iff) xs

theorem aggregate_of_empty (gap : Nat) (repo : Repo) (now : Int)
    (h : (appEventsOf repo now).isEmpty = true) :
    aggregate gap repo now = (0, repo) := by
  unfold aggregate
  rw [if_pos h]

theorem aggregate_of_nonempty (gap : Nat) (repo : Repo) (now : Int)
    (h : ¬ (appEventsOf repo now).isEmpty = true) :
    aggregate gap repo now =
      ((buildSessions gap (resolveApp repo (appEventsOf repo now) (fun _ => none))).length,
        (buildSessions gap (resolveApp repo (appEventsOf repo now) (fun _ => none))).foldl
          Repo.insertSession repo) := by
  unfold aggregate
  rw [if_neg h]

/-- C2 counterexample: a single `AppMonitor` event at timestamp 0. The
first run builds one session ending at 0, so the watermark stays 0 and
the exact-watermark exclusion is disabled (`watermark == 0`): the second
run, with no intervening events, reprocesses the event and creates one
more session instead of zero. -/
theorem C2_aggregator_counterexample :
    (aggregate 30000 zeroTsRepo 100).1 = 1 ∧
    (aggregate 30000 (aggregate 30000 zeroTsRepo 100).2 100).1 = 1 := by decide

/-- C2 (amended): with no events inserted between the two runs and the
same clock reading, the second aggregator run creates zero new sessions
and leaves the repository unchanged, provided the watermark left by the
first run is nonzero. (The watermark is the maximum session `end_time`;
events with `timestamp ≤ watermark` are excluded when `watermark > 0` —
but a watermark of exactly 0, as produced by events at timestamp 0,
disables the exclusion and breaks idempotence; see the counterexample.) -/
theorem C2_aggregator_idempotent_amended (gap : Nat) (repo : Repo) (now : Int)
    (hw : (aggregate gap repo now).2.lastSessionEndTime.getD 0 ≠ 0) :
    aggregate gap (aggregate gap repo now).2 now =
      (0, (aggregate gap repo now).2) := by
  by_cases hemp : (appEventsOf repo now).isEmpty = true
  · have h1 : aggregate gap repo now = (0, repo) := aggregate_of_empty gap repo now hemp
    rw [h1]
    exact h1
  · have h1 := aggregate_of_nonempty gap repo now hemp
    set appE := appEventsOf repo now with happE
    set resolved := resolveApp repo appE (fun _ => none) with hres
    set newS := buildSessions gap resolved with hnewS
    have hrepo1 : (aggregate gap repo now).2 = newS.foldl Repo.insertSession repo := by
      rw [h1]
    obtain ⟨hev1, hses1⟩ := foldl_insertSession_spec newS repo
    have happne : appE ≠ [] := by
      intro hc
      rw [hc] at hemp
      exact hemp rfl
    have hmap_eq : resolved.map (fun e => e.timestamp) =
        appE.map (fun e => e.timestamp) := resolveApp_timestamps repo appE _
    have hresne : resolved ≠ [] := by
      intro hc
      apply happne
      apply List.map_eq_nil_iff.mp
      rw [← hmap_eq, hc]
      rfl
    obtain ⟨hex, hub⟩ := buildSessions_spec gap resolved hresne
    rw [hmap_eq] at hex
    have happs : (appE.map (fun e => e.timestamp)).Pairwise (· ≤ ·) := by
      rw [List.pairwise_map]
      exact appEventsOf_sorted repo now
    have hts_le : ∀ e ∈ appE,
        e.timestamp ≤ (appE.map (fun e => e.timestamp)).getLastD 0 := by
      intro e he
      exact sorted_le_getLastD _ happs e.timestamp (List.mem_map_of_mem _ he) 0
    have hnew_le : ∀ s ∈ newS,
        s.end_time ≤ (appE.map (fun e => e.timestamp)).getLastD 0 := by
      apply hub
      intro e he
      have hmem : e.timestamp ∈ appE.map (fun e => e.timestamp) := by
        rw [← hmap_eq]
        exact List.mem_map_of_mem _ he
      exact sorted_le_getLastD _ happs e.timestamp hmem 0
    have hlast_mem_map :
        (appE.map (fun e => e.timestamp)).getLastD 0 ∈
          appE.map (fun e => e.timestamp) := by
      cases hA : appE with
      | nil => exact absurd hA happne
      | cons a l =>
        rw [List.map_cons]
        exact getLastD_cons_mem _ _ _
    obtain ⟨eL, heL, heLts⟩ := List.mem_map.mp hlast_mem_map
    have hw0_le : repo.lastSessionEndTime.getD 0 ≤
        (appE.map (fun e => e.timestamp)).getLastD 0 := by
      have hm := (mem_appEventsOf repo now eL).mp heL
      rw [← heLts]
      exact hm.2.1
    have hold_le : ∀ b ∈ repo.sessions.map (fun s => s.end_time),
        b ≤ (appE.map (fun e => e.timestamp)).getLastD 0 := by
      intro b hb
      cases hL : repo.lastSessionEndTime with
      | none =>
        have : repo.sessions.map (fun s => s.end_time) = [] := by
          apply List.max?_eq_none_iff.mp
          exact hL
        rw [this] at hb
        simp at hb
      | some m =>
        have hm := (int_max?_eq_some_iff _ m).mp hL
        have hmw : m = repo.lastSessionEndTime.getD 0 := by rw [hL]; rfl
        exact le_trans (hm.2 b hb) (hmw ▸ hw0_le)
    have hw1 : (aggregate gap repo now).2.lastSessionEndTime =
        some ((appE.map (fun e => e.timestamp)).getLastD 0) := by
      rw [hrepo1]
      show ((newS.foldl Repo.insertSession repo).sessions.map
        (fun s => s.end_time)).max? = _
      rw [hses1, List.map_append, int_max?_eq_some_iff]
      constructor
      · obtain ⟨s, hsmem, hsend⟩ := hex
        exact List.mem_append.mpr (Or.inr (by rw [← hsend]; exact List.mem_map_of_mem _ hsmem))
      · intro b hb
        rcases List.mem_append.mp hb with h | h
        · exact hold_le b h
        · obtain ⟨s, hsmem, hdef⟩ := List.mem_map.mp h
          rw [← hdef]
          exact hnew_le s hsmem
    have hgd : (aggregate gap repo now).2.lastSessionEndTime.getD 0 =
        (appE.map (fun e => e.timestamp)).getLastD 0 := by
      rw [hw1]
      rfl
    have hlast_ne : (appE.map (fun e => e.timestamp)).getLastD 0 ≠ 0 := by
      intro hc
      exact hw (by rw [hgd, hc])
    have hev_run2 : (aggregate gap repo now).2.events = repo.events := by
      rw [hrepo1]
      exact hev1
    have hempty2 : appEventsOf (aggregate gap repo now).2 now = [] := by
      rw [List.eq_nil_iff_forall_not_mem]
      intro e hmem
      have hm := (mem_appEventsOf _ now e).mp hmem
      rw [hgd, hev_run2] at hm
      obtain ⟨hevm, hge, hle, hsrc, hgt⟩ := hm
      have hgt' : (appE.map (fun e => e.timestamp)).getLastD 0 < e.timestamp := by
        rcases hgt with h | h
        · exact h
        · exact absurd h hlast_ne
      have he1 : e ∈ appE := by
        rw [happE, mem_appEventsOf]
        refine ⟨hevm, le_trans hw0_le (le_of_lt hgt'), hle, hsrc,
          Or.inl (lt_of_le_of_lt hw0_le hgt')⟩
      exact absurd (hts_le e he1) (not_le.mpr hgt')
    apply aggregate_of_empty
    rw [hempty2]
    rfl

theorem C2_aggregator_idempotent_amended_witness :
    aggregate 30000 (aggregate 30000 appRepo1000 2000).2 2000 =
      (0, (aggregate 30000 appRepo1000 2000).2) :=
  C2_aggregator_idempotent_amended 30000 appRepo1000 2000 (by decide)

end Cronos
